import Mathlib

/-!
# Verification of the twitter-dl snapshot & download core

A shallow embedding of the incremental synchronization / merge engine
(`src/model.rs`), the download task (`src/download_task.rs`) and the
per-account orchestration loop (`src/download/mod.rs`) of the
missuo/twitter-dl repository, together with proofs of the specified
properties.

Machine integers (`u64`, `i64`, `usize`) are modelled as `Nat` / `Int`;
none of the modelled operations can overflow on the values involved
(ids are opaque keys, counters only grow by list length).
-/

namespace TwitterDl

/-- `MODEL_VERSION` from `src/model.rs`. -/
def MODEL_VERSION : Nat := 1

/-- `MediaType` from `src/model.rs` (serde `snake_case` names are
`"video"`, `"photo"`, `"gif"`). -/
inductive MediaType where
  | video
  | photo
  | gif
deriving DecidableEq, Repr

/-- `Media` from `src/model.rs`.  `url: Option<Url>` is modelled with the
URL as its serialized string form (the `url` crate round-trips a `Url`
through its string representation). -/
structure Media where
  id : Nat
  type : MediaType
  file_name : Option String
  url : Option String
deriving DecidableEq, Repr

/-- `Tweet` from `src/model.rs` (`timestamp: i64` becomes `Int`). -/
structure Tweet where
  id : Nat
  timestamp : Int
  text : String
  media : List Media
deriving DecidableEq, Repr

/-- `DataFile` from `src/model.rs`. -/
structure DataFile where
  user_id : Nat
  tweets : List Tweet
  version : Nat
deriving DecidableEq, Repr

/-- `DataFile::new` from `src/model.rs`. -/
def DataFile.new (user_id : Nat) : DataFile :=
  { user_id := user_id, tweets := [], version := MODEL_VERSION }

/-! ## The merge engine (`DataFile::merge_tweets`)

`merge_tweets` moves the existing tweets into a `BTreeMap<u64, Tweet>`
(keys ascending, later duplicates overwrite earlier ones), folds the
incoming tweets through it, and reads the values back out in ascending
key order.  The `BTreeMap` is modelled as an association list with
strictly ascending keys. -/

/-- Association list with keys kept in strictly ascending order:
the model of `BTreeMap<u64, Tweet>`. -/
abbrev TMap := List (Nat × Tweet)

/-- `BTreeMap::get`. -/
def lookupT (k : Nat) : TMap → Option Tweet
  | [] => none
  | (k', t) :: m => if k' = k then some t else lookupT k m

/-- `BTreeMap::insert` (keeps keys strictly ascending, replaces the
value if the key is already present). -/
def insertT (k : Nat) (t : Tweet) : TMap → TMap
  | [] => [(k, t)]
  | (k', t') :: m =>
    if k < k' then (k, t) :: (k', t') :: m
    else if k = k' then (k, t) :: m
    else (k', t') :: insertT k t m

/-- `existing.into_iter().map(|t| (t.id, t)).collect::<BTreeMap<_,_>>()`. -/
def toTMap (l : List Tweet) : TMap :=
  l.foldl (fun m t => insertT t.id t m) []

/-- One iteration of the `for media in &mut tweet.media` loop of
`merge_tweets`: if the existing media list has an entry with the same
id, its `file_name` is copied over (whatever it is). -/
def carryOne (existing : List Media) (m : Media) : Media :=
  match existing.find? (fun em => em.id == m.id) with
  | some em => { m with file_name := em.file_name }
  | none => m

/-- The whole `for media in &mut tweet.media` loop of `merge_tweets`:
every `file_name` of the existing tweet's media is carried onto the
incoming tweet's media entries with matching media id. -/
def carryFileNames (existing incoming : Tweet) : Tweet :=
  { incoming with media := incoming.media.map (carryOne existing.media) }

/-- One iteration of the `for mut tweet in new_tweets` loop of
`merge_tweets`: carry file names from the entry currently in the map (if
any), insert, and count the insertion when the id was absent. -/
def mergeStep (acc : TMap × Nat) (t : Tweet) : TMap × Nat :=
  let t' := match lookupT t.id acc.1 with
    | some existing => carryFileNames existing t
    | none => t
  (insertT t.id t' acc.1,
   if (lookupT t.id acc.1).isNone then acc.2 + 1 else acc.2)

/-- `DataFile::merge_tweets` from `src/model.rs`: returns the updated
data file together with the number of not-seen-before tweets (the Rust
method mutates `self` and returns the count). -/
def DataFile.merge_tweets (df : DataFile) (new_tweets : List Tweet) :
    DataFile × Nat :=
  let start : TMap × Nat := (toTMap df.tweets, 0)
  let res := new_tweets.foldl mergeStep start
  ({ df with tweets := res.1.map (·.2), version := MODEL_VERSION }, res.2)

/-- `DataFile::latest_tweet_id` from `src/model.rs`. -/
def DataFile.latest_tweet_id (df : DataFile) : Option Nat :=
  df.tweets.getLast?.map (·.id)

/-! ## Map lemmas -/

/-- Keys of the association list are strictly ascending (the `BTreeMap`
iteration-order invariant). -/
def SortedKeys (m : TMap) : Prop :=
  List.Pairwise (fun a b : Nat × Tweet => a.1 < b.1) m

/-- Every entry's stored tweet has the entry's key as its id (the maps
we build always insert a tweet at its own id). -/
def KeysOk (m : TMap) : Prop :=
  ∀ p ∈ m, (p.2).id = p.1

theorem lookupT_insertT_self (k : Nat) (t : Tweet) (m : TMap) :
    lookupT k (insertT k t m) = some t := by
  induction m with
  | nil => simp [insertT, lookupT]
  | cons p m ih =>
    obtain ⟨k', t'⟩ := p
    by_cases h1 : k < k'
    · simp [insertT, h1, lookupT]
    · by_cases h2 : k = k'
      · simp [insertT, h1, h2, lookupT]
      · have hne : k' ≠ k := fun h => h2 h.symm
        simp [insertT, h1, h2, lookupT, hne, ih]

theorem lookupT_insertT_ne (k j : Nat) (t : Tweet) (m : TMap)
    (hne : k ≠ j) : lookupT j (insertT k t m) = lookupT j m := by
  induction m with
  | nil => simp [insertT, lookupT, hne]
  | cons p m ih =>
    obtain ⟨k', t'⟩ := p
    by_cases h1 : k < k'
    · simp [insertT, h1, lookupT, hne]
    · by_cases h2 : k = k'
      · subst h2
        simp [insertT, h1, lookupT, hne]
      · simp [insertT, h1, h2, lookupT, ih]

theorem mem_insertT {p : Nat × Tweet} {k : Nat} {t : Tweet} {m : TMap}
    (h : p ∈ insertT k t m) : p = (k, t) ∨ p ∈ m := by
  induction m with
  | nil => simpa [insertT] using h
  | cons q m ih =>
    obtain ⟨k', t'⟩ := q
    by_cases h1 : k < k'
    · simp only [insertT, if_pos h1, List.mem_cons] at h
      rcases h with h | h | h
      · exact Or.inl h
      · exact Or.inr (List.mem_cons.mpr (Or.inl h))
      · exact Or.inr (List.mem_cons.mpr (Or.inr h))
    · by_cases h2 : k = k'
      · simp only [insertT, if_neg h1, if_pos h2, List.mem_cons] at h
        tauto
      · simp only [insertT, if_neg h1, if_neg h2, List.mem_cons] at h
        rcases h with h | h
        · right; simp [h]
        · rcases ih h with h | h
          · tauto
          · right; simp [h]

theorem sortedKeys_insertT (k : Nat) (t : Tweet) {m : TMap}
    (hm : SortedKeys m) : SortedKeys (insertT k t m) := by
  induction m with
  | nil => simp [insertT, SortedKeys]
  | cons q m ih =>
    obtain ⟨k', t'⟩ := q
    rw [SortedKeys, List.pairwise_cons] at hm
    obtain ⟨hlt, hm'⟩ := hm
    by_cases h1 : k < k'
    · rw [SortedKeys, insertT]
      simp only [if_pos h1]
      refine List.Pairwise.cons ?_ (List.Pairwise.cons hlt hm')
      intro p hp
      rcases List.mem_cons.mp hp with h | h
      · subst h; exact h1
      · exact lt_trans h1 (hlt p h)
    · by_cases h2 : k = k'
      · subst h2
        rw [SortedKeys, insertT]
        simp only [lt_irrefl, if_neg h1, if_pos rfl]
        exact List.Pairwise.cons hlt hm'
      · have hk : k' < k := by omega
        rw [SortedKeys, insertT]
        simp only [if_neg h1, if_neg h2]
        refine List.Pairwise.cons ?_ (ih hm')
        intro p hp
        rcases mem_insertT hp with h | h
        · subst h; exact hk
        · exact hlt p h

theorem keysOk_insertT {k : Nat} {t : Tweet} {m : TMap}
    (ht : t.id = k) (hm : KeysOk m) : KeysOk (insertT k t m) := by
  intro p hp
  rcases mem_insertT hp with h | h
  · subst h; exact ht
  · exact hm p h

theorem lookupT_mem {k : Nat} {t : Tweet} {m : TMap}
    (h : lookupT k m = some t) : (k, t) ∈ m := by
  induction m with
  | nil => simp [lookupT] at h
  | cons q m ih =>
    obtain ⟨k', t'⟩ := q
    by_cases hk : k' = k
    · subst hk
      simp only [lookupT, if_true, eq_self_iff_true, Option.some.injEq] at h
      subst h; exact List.mem_cons_self _ _
    · simp only [lookupT, if_neg hk] at h
      exact List.mem_cons_of_mem _ (ih h)

theorem lookupT_none_iff {k : Nat} {m : TMap} :
    lookupT k m = none ↔ ∀ p ∈ m, p.1 ≠ k := by
  induction m with
  | nil => simp [lookupT]
  | cons q m ih =>
    obtain ⟨k', t'⟩ := q
    by_cases hk : k' = k
    · subst hk; simp [lookupT]
    · simp [lookupT, hk, ih]

/-- Key-sorted association lists with equal lookup functions are equal. -/
theorem tmap_ext : ∀ {m m' : TMap}, SortedKeys m → SortedKeys m' →
    (∀ k, lookupT k m = lookupT k m') → m = m'
  | [], [], _, _, _ => rfl
  | [], (k', t') :: m', _, _, h => by
    have := h k'
    simp [lookupT] at this
  | (k, t) :: m, [], _, _, h => by
    have := h k
    simp [lookupT] at this
  | (k, t) :: m, (k', t') :: m', hm, hm', h => by
    rw [SortedKeys, List.pairwise_cons] at hm hm'
    obtain ⟨hlt, hms⟩ := hm
    obtain ⟨hlt', hms'⟩ := hm'
    have hkk : k = k' := by
      by_contra hne
      rcases Nat.lt_or_ge k k' with hlt2 | hge
      · have h1 := h k
        simp only [lookupT, if_pos rfl] at h1
        have hne' : k' ≠ k := fun hh => hne hh.symm
        rw [if_neg hne'] at h1
        have : lookupT k m' = none := by
          rw [lookupT_none_iff]
          intro p hp hpk
          have := hlt' p hp
          omega
        rw [this] at h1
        exact Option.noConfusion h1
      · have hlt2 : k' < k := by omega
        have h1 := h k'
        simp only [lookupT, if_pos rfl] at h1
        have hne' : k ≠ k' := hne
        rw [if_neg hne'] at h1
        have : lookupT k' m = none := by
          rw [lookupT_none_iff]
          intro p hp hpk
          have := hlt p hp
          omega
        rw [this] at h1
        exact Option.noConfusion h1
    subst hkk
    have htt : t = t' := by
      have h1 := h k
      simp only [lookupT, if_true, eq_self_iff_true, Option.some.injEq] at h1
      exact h1
    subst htt
    have hrest : ∀ j, lookupT j m = lookupT j m' := by
      intro j
      by_cases hj : j = k
      · subst hj
        have h1 : lookupT j m = none := by
          rw [lookupT_none_iff]; intro p hp hpk
          have := hlt p hp; omega
        have h2 : lookupT j m' = none := by
          rw [lookupT_none_iff]; intro p hp hpk
          have := hlt' p hp; omega
        rw [h1, h2]
      · have h1 := h j
        have hne : k ≠ j := fun hh => hj hh.symm
        simpa only [lookupT, if_neg hne] using h1
    rw [tmap_ext hms hms' hrest]

/-! ## Fold lemmas for `toTMap` and the merge loop -/

theorem sortedKeys_toTMap_aux (l : List Tweet) (m : TMap)
    (hm : SortedKeys m) :
    SortedKeys (l.foldl (fun m t => insertT t.id t m) m) := by
  induction l generalizing m with
  | nil => exact hm
  | cons t l ih => exact ih _ (sortedKeys_insertT _ _ hm)

theorem sortedKeys_toTMap (l : List Tweet) : SortedKeys (toTMap l) :=
  sortedKeys_toTMap_aux l [] (by simp [SortedKeys])

theorem keysOk_toTMap_aux (l : List Tweet) (m : TMap) (hm : KeysOk m) :
    KeysOk (l.foldl (fun m t => insertT t.id t m) m) := by
  induction l generalizing m with
  | nil => exact hm
  | cons t l ih => exact ih _ (keysOk_insertT rfl hm)

theorem keysOk_toTMap (l : List Tweet) : KeysOk (toTMap l) :=
  keysOk_toTMap_aux l [] (by intro p hp; simp at hp)

theorem carryFileNames_id (e t : Tweet) : (carryFileNames e t).id = t.id :=
  rfl

theorem lookupT_toTMap_aux (l : List Tweet) (m : TMap) (k : Nat)
    (h : (l.map Tweet.id).Nodup) :
    lookupT k (l.foldl (fun m t => insertT t.id t m) m) =
      match l.find? (fun t => t.id == k) with
      | some t => some t
      | none => lookupT k m := by
  induction l generalizing m with
  | nil => simp
  | cons t l ih =>
    simp only [List.map_cons, List.nodup_cons] at h
    obtain ⟨hni, hnd⟩ := h
    by_cases hk : t.id = k
    · subst hk
      simp only [List.foldl_cons, List.find?_cons, beq_self_eq_true]
      rw [ih _ hnd]
      have hfind : l.find? (fun t' => t'.id == t.id) = none := by
        rw [List.find?_eq_none]
        intro x hx
        simp only [beq_iff_eq]
        intro hxe
        exact hni (hxe ▸ List.mem_map_of_mem Tweet.id hx)
      rw [hfind]
      exact lookupT_insertT_self _ _ _
    · simp only [List.foldl_cons, List.find?_cons]
      have : (t.id == k) = false := by simpa using hk
      rw [this]
      rw [ih _ hnd, lookupT_insertT_ne _ _ _ _ hk]

theorem lookupT_toTMap (l : List Tweet) (k : Nat)
    (h : (l.map Tweet.id).Nodup) :
    lookupT k (toTMap l) = l.find? (fun t => t.id == k) := by
  rw [toTMap, lookupT_toTMap_aux l [] k h]
  cases l.find? (fun t => t.id == k) <;> simp [lookupT]

theorem lookupT_toTMap_none_iff (l : List Tweet) (k : Nat) :
    lookupT k (toTMap l) = none ↔ k ∉ l.map Tweet.id := by
  have aux : ∀ (m : TMap),
      lookupT k (l.foldl (fun m t => insertT t.id t m) m) = none ↔
        k ∉ l.map Tweet.id ∧ lookupT k m = none := by
    induction l with
    | nil => simp
    | cons t l ih =>
      intro m
      simp only [List.foldl_cons, List.map_cons, List.mem_cons]
      rw [ih]
      by_cases hk : t.id = k
      · subst hk
        rw [lookupT_insertT_self]
        simp
      · rw [lookupT_insertT_ne _ _ _ _ hk]
        constructor
        · rintro ⟨h1, h2⟩
          exact ⟨by tauto, h2⟩
        · rintro ⟨h1, h2⟩
          exact ⟨by tauto, h2⟩
  rw [toTMap, aux []]
  simp [lookupT]

/-- The map component of the merge fold does not touch keys that are
not ids of processed tweets. -/
theorem mergeFold_lookup_notmem (l : List Tweet) (m : TMap) (n k : Nat)
    (h : k ∉ l.map Tweet.id) :
    lookupT k (l.foldl mergeStep (m, n)).1 = lookupT k m := by
  induction l generalizing m n with
  | nil => rfl
  | cons t l ih =>
    simp only [List.map_cons, List.mem_cons] at h
    push_neg at h
    obtain ⟨h1, h2⟩ := h
    simp only [List.foldl_cons]
    rw [show (mergeStep (m, n) t) =
      ((mergeStep (m, n) t).1, (mergeStep (m, n) t).2) from rfl]
    rw [ih _ _ h2]
    exact lookupT_insertT_ne _ _ _ _ (fun hh => h1 hh.symm)

/-- Under distinct incoming ids, the final map holds, at each incoming
tweet's id, exactly that tweet with the file names carried over from the
initial map entry. -/
theorem mergeFold_lookup_mem (l : List Tweet) (m : TMap) (n : Nat)
    (hnd : (l.map Tweet.id).Nodup) :
    ∀ t ∈ l, lookupT t.id (l.foldl mergeStep (m, n)).1 =
      some (match lookupT t.id m with
        | some e => carryFileNames e t
        | none => t) := by
  induction l generalizing m n with
  | nil => intro t ht; simp at ht
  | cons t0 l ih =>
    simp only [List.map_cons, List.nodup_cons] at hnd
    obtain ⟨hni, hnd⟩ := hnd
    intro t ht
    rcases List.mem_cons.mp ht with rfl | hmem
    · simp only [List.foldl_cons]
      rw [show (mergeStep (m, n) t) =
        ((mergeStep (m, n) t).1, (mergeStep (m, n) t).2) from rfl]
      rw [mergeFold_lookup_notmem _ _ _ _ hni]
      simp only [mergeStep]
      cases h : lookupT t.id m with
      | none => simp [h, lookupT_insertT_self]
      | some e => simp [h, lookupT_insertT_self]
    · have hne : t0.id ≠ t.id := by
        intro hh
        exact hni (hh ▸ List.mem_map_of_mem Tweet.id hmem)
      simp only [List.foldl_cons]
      rw [show (mergeStep (m, n) t0) =
        ((mergeStep (m, n) t0).1, (mergeStep (m, n) t0).2) from rfl]
      rw [ih _ _ hnd t hmem]
      simp only [mergeStep]
      rw [lookupT_insertT_ne _ _ _ _ hne]

/-- Under distinct incoming ids, the counter component counts the
incoming tweets whose id is absent from the initial map. -/
theorem mergeFold_count (l : List Tweet) (m : TMap) (n : Nat)
    (hnd : (l.map Tweet.id).Nodup) :
    (l.foldl mergeStep (m, n)).2 =
      n + (l.filter (fun t => (lookupT t.id m).isNone)).length := by
  induction l generalizing m n with
  | nil => simp
  | cons t0 l ih =>
    simp only [List.map_cons, List.nodup_cons] at hnd
    obtain ⟨hni, hnd⟩ := hnd
    simp only [List.foldl_cons]
    rw [show (mergeStep (m, n) t0) =
      ((mergeStep (m, n) t0).1, (mergeStep (m, n) t0).2) from rfl]
    rw [ih _ _ hnd]
    have hfilter : l.filter (fun t => (lookupT t.id (mergeStep (m, n) t0).1).isNone) =
        l.filter (fun t => (lookupT t.id m).isNone) := by
      apply List.filter_congr
      intro t ht
      have hne : t0.id ≠ t.id := by
        intro hh
        exact hni (hh ▸ List.mem_map_of_mem Tweet.id ht)
      simp only [mergeStep]
      rw [lookupT_insertT_ne _ _ _ _ hne]
    rw [hfilter]
    simp only [mergeStep, List.filter_cons]
    cases h : lookupT t0.id m with
    | none => simp [h]; omega
    | some e => simp [h]

/-- The merge fold preserves key sortedness and key consistency. -/
theorem mergeFold_sortedKeys (l : List Tweet) (m : TMap) (n : Nat)
    (hm : SortedKeys m) : SortedKeys (l.foldl mergeStep (m, n)).1 := by
  induction l generalizing m n with
  | nil => exact hm
  | cons t l ih =>
    simp only [List.foldl_cons]
    rw [show (mergeStep (m, n) t) =
      ((mergeStep (m, n) t).1, (mergeStep (m, n) t).2) from rfl]
    exact ih _ _ (sortedKeys_insertT _ _ hm)

theorem mergeFold_keysOk (l : List Tweet) (m : TMap) (n : Nat)
    (hm : KeysOk m) : KeysOk (l.foldl mergeStep (m, n)).1 := by
  induction l generalizing m n with
  | nil => exact hm
  | cons t l ih =>
    simp only [List.foldl_cons]
    rw [show (mergeStep (m, n) t) =
      ((mergeStep (m, n) t).1, (mergeStep (m, n) t).2) from rfl]
    apply ih
    apply keysOk_insertT _ hm
    simp only [mergeStep]
    cases h : lookupT t.id m <;> simp [h, carryFileNames_id]

/-- Values of a sorted, key-consistent map have pairwise-distinct ids. -/
theorem values_ids_nodup {m : TMap} (hs : SortedKeys m) (hk : KeysOk m) :
    ((m.map (·.2)).map Tweet.id).Nodup := by
  induction m with
  | nil => simp
  | cons p m ih =>
    rw [SortedKeys, List.pairwise_cons] at hs
    obtain ⟨hlt, hms⟩ := hs
    simp only [List.map_cons, List.nodup_cons]
    constructor
    · intro hmem
      simp only [List.mem_map] at hmem
      obtain ⟨q, hq, hid⟩ := hmem
      obtain ⟨q', hq', rfl⟩ := hq
      have h1 := hk q' (List.mem_cons_of_mem _ hq')
      have h2 := hk p (List.mem_cons_self _ _)
      have h3 := hlt q' hq'
      omega
    · exact ih hms (fun q hq => hk q (List.mem_cons_of_mem _ hq))

theorem lookupT_isNone_contains (l : List Tweet) (k : Nat) :
    (lookupT k (toTMap l)).isNone = !((l.map Tweet.id).contains k) := by
  by_cases h : k ∈ l.map Tweet.id
  · have hne : lookupT k (toTMap l) ≠ none := by
      intro hc
      exact (lookupT_toTMap_none_iff l k).mp hc h
    have hc : (l.map Tweet.id).contains k = true := by simpa using h
    cases hl : lookupT k (toTMap l) with
    | none => exact absurd hl hne
    | some v => rw [hc]; rfl
  · rw [(lookupT_toTMap_none_iff l k).mpr h]
    have hc : (l.map Tweet.id).contains k = false := by simpa using h
    rw [hc]; rfl

/-- Claim C1: the `merge_tweets` postcondition.  For a snapshot and an
incoming list both satisfying the unique-id data-model invariant:
the merged snapshot's version is `MODEL_VERSION` and its account is
unchanged; the returned count is the number of incoming tweets whose id
was not previously present; every incoming tweet whose id already
existed is stored as the incoming tweet with the existing tweet's
`file_name` values carried onto its media entries with matching media
id (`carryFileNames`); every incoming tweet with a fresh id is inserted
unchanged; and the result again has pairwise-distinct tweet ids. -/
theorem merge_tweets_postcondition (df : DataFile) (ts : List Tweet)
    (hdf : (df.tweets.map Tweet.id).Nodup)
    (hts : (ts.map Tweet.id).Nodup) :
    (df.merge_tweets ts).1.user_id = df.user_id ∧
    (df.merge_tweets ts).1.version = MODEL_VERSION ∧
    (df.merge_tweets ts).2 =
      (ts.filter (fun t => !((df.tweets.map Tweet.id).contains t.id))).length ∧
    (∀ t ∈ ts, match df.tweets.find? (fun e => e.id == t.id) with
      | some e => carryFileNames e t ∈ (df.merge_tweets ts).1.tweets
      | none => t ∈ (df.merge_tweets ts).1.tweets) ∧
    ((df.merge_tweets ts).1.tweets.map Tweet.id).Nodup := by
  refine ⟨rfl, rfl, ?_, ?_, ?_⟩
  · show (ts.foldl mergeStep (toTMap df.tweets, 0)).2 = _
    rw [mergeFold_count ts (toTMap df.tweets) 0 hts]
    rw [Nat.zero_add]
    congr 1
    apply List.filter_congr
    intro t _
    exact lookupT_isNone_contains df.tweets t.id
  · intro t ht
    have hlk := mergeFold_lookup_mem ts (toTMap df.tweets) 0 hts t ht
    rw [lookupT_toTMap df.tweets t.id hdf] at hlk
    have hmem : ∀ v, lookupT t.id (ts.foldl mergeStep (toTMap df.tweets, 0)).1 = some v →
        v ∈ (df.merge_tweets ts).1.tweets := by
      intro v hv
      have := lookupT_mem hv
      exact List.mem_map_of_mem (·.2) this
    cases hfind : df.tweets.find? (fun e => e.id == t.id) with
    | some e =>
      rw [hfind] at hlk
      exact hmem _ hlk
    | none =>
      rw [hfind] at hlk
      exact hmem _ hlk
  · exact values_ids_nodup
      (mergeFold_sortedKeys ts _ 0 (sortedKeys_toTMap df.tweets))
      (mergeFold_keysOk ts _ 0 (keysOk_toTMap df.tweets))

/-! Concrete sample data used by witnesses and counterexamples. -/

def mediaA : Media :=
  { id := 1, type := .photo, file_name := some "a.jpg", url := some "u" }

def mediaA' : Media :=
  { id := 1, type := .photo, file_name := none, url := some "u" }

def tweetOld : Tweet :=
  { id := 1, timestamp := 0, text := "old", media := [mediaA] }

def tweetNew : Tweet :=
  { id := 1, timestamp := 0, text := "new", media := [mediaA'] }

def tweetTwo : Tweet :=
  { id := 2, timestamp := 0, text := "two", media := [] }

def dfSample : DataFile :=
  { user_id := 9, tweets := [tweetOld], version := 0 }

def tweetDropped : Tweet :=
  { id := 1, timestamp := 0, text := "drop", media := [] }

/-- Witness for C1 at a concrete input: one refreshed tweet (its
artifact binding carried forward) and one new tweet, count `1`. -/
theorem merge_tweets_postcondition_witness :
    (dfSample.merge_tweets [tweetNew, tweetTwo]).1.version = MODEL_VERSION ∧
    (dfSample.merge_tweets [tweetNew, tweetTwo]).2 = 1 := by
  have h := merge_tweets_postcondition dfSample [tweetNew, tweetTwo]
    (by decide) (by decide)
  refine ⟨h.2.1, ?_⟩
  rw [h.2.2.1]
  decide

/-! ## Merge idempotence and artifact preservation (claim C2) -/

/-- A `file_name` binding `f` is recorded in `df` for media `mid` of
tweet `tid`. -/
def bindingPresent (df : DataFile) (tid mid : Nat) (f : String) : Prop :=
  ∃ t ∈ df.tweets, t.id = tid ∧ ∃ m ∈ t.media, m.id = mid ∧ m.file_name = some f

instance (df : DataFile) (tid mid : Nat) (f : String) :
    Decidable (bindingPresent df tid mid f) := by
  unfold bindingPresent; infer_instance

/-- In a list with pairwise-distinct keys, `find?` at a member's key
returns exactly that member. -/
theorem find?_key_of_nodup {α : Type} (key : α → Nat) (l : List α) (a : α)
    (hnd : (l.map key).Nodup) (ha : a ∈ l) :
    l.find? (fun x => key x == key a) = some a := by
  induction l with
  | nil => simp at ha
  | cons x r ih =>
    simp only [List.map_cons, List.nodup_cons] at hnd
    obtain ⟨hni, hnd⟩ := hnd
    rcases List.mem_cons.mp ha with rfl | hmem
    · simp [List.find?_cons]
    · have hne : key x ≠ key a := by
        intro hh
        exact hni (hh ▸ List.mem_map_of_mem key hmem)
      simp only [List.find?_cons]
      have : (key x == key a) = false := by simpa using hne
      rw [this]
      exact ih hnd hmem

/-- `find?` by key commutes with mapping a key-preserving function. -/
theorem find?_map_key {α : Type} (key : α → Nat) (g : α → α)
    (hg : ∀ a, key (g a) = key a) (l : List α) (c : Nat) :
    (l.map g).find? (fun x => key x == c) =
      (l.find? (fun x => key x == c)).map g := by
  induction l with
  | nil => simp
  | cons x r ih =>
    simp only [List.map_cons, List.find?_cons, hg]
    cases h : (key x == c) with
    | true => simp
    | false => simpa using ih

theorem carryOne_id (ex : List Media) (m : Media) :
    (carryOne ex m).id = m.id := by
  unfold carryOne
  cases ex.find? (fun em => em.id == m.id) <;> rfl

theorem carryOne_mem_self (l : List Media) (m : Media)
    (h : (l.map Media.id).Nodup) (hm : m ∈ l) : carryOne l m = m := by
  unfold carryOne
  rw [find?_key_of_nodup Media.id l m h hm]

theorem carryOne_eq_of_some {ex : List Media} {m em : Media}
    (h : ex.find? (fun x => x.id == m.id) = some em) :
    carryOne ex m = { m with file_name := em.file_name } := by
  unfold carryOne
  rw [h]

theorem carryOne_eq_of_none {ex : List Media} {m : Media}
    (h : ex.find? (fun x => x.id == m.id) = none) :
    carryOne ex m = m := by
  unfold carryOne
  rw [h]

theorem carryOne_map_carryOne (ex l : List Media) (m : Media)
    (h : (l.map Media.id).Nodup) (hm : m ∈ l) :
    carryOne (l.map (carryOne ex)) m = carryOne ex m := by
  have h1 : (l.map (carryOne ex)).find? (fun x => x.id == m.id) =
      (l.find? (fun x => x.id == m.id)).map (carryOne ex) :=
    find?_map_key Media.id (carryOne ex) (carryOne_id ex) l m.id
  have h2 : l.find? (fun x => x.id == m.id) = some m :=
    find?_key_of_nodup Media.id l m h hm
  rw [h2, Option.map_some'] at h1
  rw [carryOne_eq_of_some h1]
  cases hf : ex.find? (fun x => x.id == m.id) with
  | none => rw [carryOne_eq_of_none hf]
  | some em => rw [carryOne_eq_of_some hf]

theorem carryFileNames_self (t : Tweet)
    (h : (t.media.map Media.id).Nodup) : carryFileNames t t = t := by
  unfold carryFileNames
  have hmedia : t.media.map (carryOne t.media) = t.media := by
    rw [show t.media.map (carryOne t.media) = t.media.map id from
      List.map_congr_left fun m hm => carryOne_mem_self t.media m h hm]
    exact List.map_id t.media
  rw [hmedia]

theorem carryFileNames_carry (e t : Tweet)
    (h : (t.media.map Media.id).Nodup) :
    carryFileNames (carryFileNames e t) t = carryFileNames e t := by
  unfold carryFileNames
  have hmedia : t.media.map (carryOne (t.media.map (carryOne e.media))) =
      t.media.map (carryOne e.media) :=
    List.map_congr_left fun m hm => carryOne_map_carryOne e.media t.media m h hm
  rw [hmedia]

theorem foldl_insert_cons (l : List Tweet) (k : Nat) (t : Tweet) (m0 : TMap)
    (h : ∀ t' ∈ l, k < t'.id) :
    l.foldl (fun m t => insertT t.id t m) ((k, t) :: m0) =
      (k, t) :: l.foldl (fun m t => insertT t.id t m) m0 := by
  induction l generalizing m0 with
  | nil => rfl
  | cons t' l ih =>
    have hk := h t' (List.mem_cons_self _ _)
    simp only [List.foldl_cons]
    have hstep : insertT t'.id t' ((k, t) :: m0) = (k, t) :: insertT t'.id t' m0 := by
      simp only [insertT]
      rw [if_neg (by omega), if_neg (by omega)]
    rw [hstep]
    exact ih _ (fun x hx => h x (List.mem_cons_of_mem _ hx))

/-- Rebuilding a map from its own values gives the map back. -/
theorem toTMap_values : ∀ {m : TMap}, SortedKeys m → KeysOk m →
    toTMap (m.map (·.2)) = m
  | [], _, _ => rfl
  | (k, t) :: m, hs, hk => by
    rw [SortedKeys, List.pairwise_cons] at hs
    obtain ⟨hlt, hms⟩ := hs
    have htid : t.id = k := hk (k, t) (List.mem_cons_self _ _)
    have hrest : ∀ t' ∈ m.map (·.2), k < t'.id := by
      intro t' ht'
      obtain ⟨q, hq, rfl⟩ := List.mem_map.mp ht'
      have h1 := hk q (List.mem_cons_of_mem _ hq)
      have h2 := hlt q hq
      omega
    have hkeys : KeysOk m := fun q hq => hk q (List.mem_cons_of_mem _ hq)
    show (m.map (·.2)).foldl (fun m t => insertT t.id t m) (insertT t.id t []) =
      (k, t) :: m
    have : insertT t.id t ([] : TMap) = [(k, t)] := by
      simp [insertT, htid]
    rw [this, foldl_insert_cons _ _ _ _ hrest]
    show (k, t) :: toTMap (m.map (·.2)) = (k, t) :: m
    rw [toTMap_values hms hkeys]

/-- Claim C2 (counterexample): a `file_name` binding present before a
merge is lost when the incoming tweet with the same id no longer
carries a media entry with that media id — the incoming post replaces
the stored one wholesale. -/
theorem merge_idempotence_counterexample :
    bindingPresent dfSample 1 1 "a.jpg" ∧
    ¬ bindingPresent (dfSample.merge_tweets [tweetDropped]).1 1 1 "a.jpg" := by
  decide

/-- Claim C2 (amended): for snapshots and incoming lists satisfying the
data-model uniqueness invariants (pairwise-distinct tweet ids, and
pairwise-distinct media ids within each tweet), merging the same list
twice yields the same snapshot as merging once; and every `file_name`
binding present before the merge is present identically afterward,
provided each incoming tweet that re-sends a bound tweet id still
contains a media entry with the bound media id. -/
theorem merge_idempotence_amended (df : DataFile) (ts : List Tweet)
    (hdf : (df.tweets.map Tweet.id).Nodup)
    (hts : (ts.map Tweet.id).Nodup)
    (hdm : ∀ e ∈ df.tweets, (e.media.map Media.id).Nodup)
    (htm : ∀ t ∈ ts, (t.media.map Media.id).Nodup) :
    ((df.merge_tweets ts).1.merge_tweets ts).1 = (df.merge_tweets ts).1 ∧
    (∀ tid mid f, bindingPresent df tid mid f →
      (∀ t ∈ ts, t.id = tid → ∃ m ∈ t.media, m.id = mid) →
      bindingPresent (df.merge_tweets ts).1 tid mid f) := by
  have hm1s : SortedKeys (ts.foldl mergeStep (toTMap df.tweets, 0)).1 :=
    mergeFold_sortedKeys ts _ 0 (sortedKeys_toTMap df.tweets)
  have hm1k : KeysOk (ts.foldl mergeStep (toTMap df.tweets, 0)).1 :=
    mergeFold_keysOk ts _ 0 (keysOk_toTMap df.tweets)
  constructor
  · have hs1 : (df.merge_tweets ts).1.tweets =
        ((ts.foldl mergeStep (toTMap df.tweets, 0)).1).map (·.2) := rfl
    have htv : toTMap ((df.merge_tweets ts).1.tweets) =
        (ts.foldl mergeStep (toTMap df.tweets, 0)).1 := by
      rw [hs1]; exact toTMap_values hm1s hm1k
    have hm2 : (ts.foldl mergeStep
        (toTMap (df.merge_tweets ts).1.tweets, 0)).1 =
        (ts.foldl mergeStep (toTMap df.tweets, 0)).1 := by
      rw [htv]
      apply tmap_ext (mergeFold_sortedKeys ts _ 0 hm1s) hm1s
      intro k
      by_cases hk : k ∈ ts.map Tweet.id
      · obtain ⟨t, ht, rfl⟩ := List.mem_map.mp hk
        rw [mergeFold_lookup_mem ts _ 0 hts t ht]
        have h1 := mergeFold_lookup_mem ts (toTMap df.tweets) 0 hts t ht
        cases hdf0 : lookupT t.id (toTMap df.tweets) with
        | none =>
          rw [hdf0] at h1
          rw [h1]
          simp only [Option.some.injEq]
          exact carryFileNames_self t (htm t ht)
        | some e =>
          rw [hdf0] at h1
          rw [h1]
          simp only [Option.some.injEq]
          exact carryFileNames_carry e t (htm t ht)
      · exact mergeFold_lookup_notmem ts _ 0 _ hk
    show ({ user_id := (df.merge_tweets ts).1.user_id,
            tweets := (ts.foldl mergeStep
              (toTMap (df.merge_tweets ts).1.tweets, 0)).1.map (·.2),
            version := MODEL_VERSION } : DataFile) = (df.merge_tweets ts).1
    rw [hm2]
    rfl
  · rintro tid mid f ⟨e, he, heid, em, hem, hemid, hf⟩ hcond
    have hfind : df.tweets.find? (fun x => x.id == e.id) = some e :=
      find?_key_of_nodup Tweet.id df.tweets e hdf he
    have hlkdf : lookupT tid (toTMap df.tweets) = some e := by
      rw [lookupT_toTMap df.tweets tid hdf, ← heid]
      exact hfind
    by_cases hin : tid ∈ ts.map Tweet.id
    · obtain ⟨t, ht, htid⟩ := List.mem_map.mp hin
      obtain ⟨tm, htmmem, htmid⟩ := hcond t ht htid
      have hlk := mergeFold_lookup_mem ts (toTMap df.tweets) 0 hts t ht
      rw [show lookupT t.id (toTMap df.tweets) = some e from htid ▸ hlkdf] at hlk
      have hmem : carryFileNames e t ∈ (df.merge_tweets ts).1.tweets :=
        List.mem_map_of_mem (·.2) (lookupT_mem hlk)
      refine ⟨carryFileNames e t, hmem, htid, carryOne e.media tm,
        List.mem_map_of_mem _ htmmem, ?_, ?_⟩
      · rw [carryOne_id]; exact htmid
      · have hefind : e.media.find? (fun x => x.id == tm.id) = some em := by
          have := find?_key_of_nodup Media.id e.media em (hdm e he) hem
          rw [show em.id = tm.id from hemid.trans htmid.symm] at this
          exact this
        rw [carryOne_eq_of_some hefind]
        exact hf
    · have hlk : lookupT tid (ts.foldl mergeStep (toTMap df.tweets, 0)).1 =
          some e := by
        rw [mergeFold_lookup_notmem ts _ 0 _ hin]
        exact hlkdf
      exact ⟨e, List.mem_map_of_mem (·.2) (lookupT_mem hlk), heid,
        em, hem, hemid, hf⟩

/-- Witness for the amended C2 at a concrete input: re-merging the
refreshed tweet is idempotent and the binding `"a.jpg"` survives. -/
theorem merge_idempotence_amended_witness :
    (((dfSample.merge_tweets [tweetNew]).1.merge_tweets [tweetNew]).1 =
      (dfSample.merge_tweets [tweetNew]).1) ∧
    bindingPresent (dfSample.merge_tweets [tweetNew]).1 1 1 "a.jpg" := by
  have h := merge_idempotence_amended dfSample [tweetNew]
    (by decide) (by decide) (by decide) (by decide)
  exact ⟨h.1, h.2 1 1 "a.jpg" (by decide) (by decide)⟩

/-! ## Cursor decision (claim C3) -/

/-- The `since_id` computation of `download_account`
(`src/download/mod.rs`, lines 119-124): `None` when a rescan was forced
or the loaded data file's version is behind, otherwise
`latest_tweet_id()`. -/
def sinceId (rescan : Bool) (df : DataFile) : Option Nat :=
  if rescan || decide (df.version < MODEL_VERSION) then none
  else df.latest_tweet_id

/-- In a `(· ≤ ·)`-sorted list every element is bounded by the last. -/
theorem sorted_le_getLast : ∀ (l : List Nat), List.Sorted (· ≤ ·) l →
    ∀ (h : l ≠ []) x, x ∈ l → x ≤ l.getLast h
  | [a], _, _, x, hx => by
    simp at hx
    subst hx
    simp [List.getLast]
  | a :: b :: r, hs, _, x, hx => by
    rw [List.sorted_cons] at hs
    obtain ⟨ha, hs⟩ := hs
    rw [List.getLast_cons (List.cons_ne_nil b r)]
    rcases List.mem_cons.mp hx with rfl | hmem
    · exact ha _ (List.getLast_mem (List.cons_ne_nil b r))
    · exact sorted_le_getLast (b :: r) hs (List.cons_ne_nil b r) x hmem

/-- Claim C3: the cursor passed to the tweet fetcher is `None` when the
forced-rescan flag is set or the data file's version is behind
`MODEL_VERSION`; otherwise it is `latest_tweet_id()`, which on a
snapshot whose ids are sorted ascending is the maximum id, and which is
absent for an empty snapshot. -/
theorem cursor_decision (rescan : Bool) (df : DataFile) :
    ((rescan = true ∨ df.version < MODEL_VERSION) →
      sinceId rescan df = none) ∧
    (rescan = false → MODEL_VERSION ≤ df.version →
      sinceId rescan df = df.latest_tweet_id) ∧
    (List.Sorted (· ≤ ·) (df.tweets.map Tweet.id) → df.tweets ≠ [] →
      ∃ m, df.latest_tweet_id = some m ∧ m ∈ df.tweets.map Tweet.id ∧
        ∀ x ∈ df.tweets.map Tweet.id, x ≤ m) ∧
    (df.tweets = [] → df.latest_tweet_id = none) := by
  refine ⟨?_, ?_, ?_, ?_⟩
  · rintro (h | h)
    · simp [sinceId, h]
    · simp [sinceId, h]
  · intro h1 h2
    simp [sinceId, h1, Nat.not_lt.mpr h2]
  · intro hs hne
    have hne' : df.tweets.map Tweet.id ≠ [] := by simpa using hne
    refine ⟨(df.tweets.map Tweet.id).getLast hne', ?_,
      List.getLast_mem hne', fun x hx => sorted_le_getLast _ hs hne' x hx⟩
    show df.tweets.getLast?.map Tweet.id = _
    rw [← List.getLast?_map, List.getLast?_eq_getLast _ hne']
  · intro h
    simp [DataFile.latest_tweet_id, h]

def dfCursor : DataFile :=
  { user_id := 9,
    tweets := [{ id := 1, timestamp := 0, text := "a", media := [] },
               { id := 2, timestamp := 0, text := "b", media := [] },
               { id := 5, timestamp := 0, text := "c", media := [] }],
    version := MODEL_VERSION }

/-- Witness for C3 at the spec's example: posts `{1,2,5}` give cursor
`5`; a forced rescan gives `None`; an empty snapshot gives `None`. -/
theorem cursor_decision_witness :
    sinceId false dfCursor = some 5 ∧
    sinceId true dfCursor = none ∧
    sinceId false (DataFile.new 9) = none := by
  have h := cursor_decision false dfCursor
  have h2 := cursor_decision true dfCursor
  have h3 := cursor_decision false (DataFile.new 9)
  refine ⟨?_, h2.1 (Or.inl rfl), ?_⟩
  · obtain ⟨m, hm, hmem, hmax⟩ := h.2.2.1 (by decide) (by decide)
    have hcur := h.2.1 rfl (by decide)
    have hm5 : m = 5 := by
      have h5 := hmax 5 (by decide)
      have hmem' : m = 1 ∨ m = 2 ∨ m = 5 := by
        have : m ∈ [1, 2, 5] := by simpa [dfCursor] using hmem
        simpa using this
      rcases hmem' with h | h | h <;> omega
    rw [hcur, hm, hm5]
  · have hcur := h3.2.1 rfl (by decide)
    rw [hcur]
    exact h3.2.2.2 rfl

/-! ## Persistence (`DataFile::load` / `DataFile::save`)

The snapshot file is serialized with `serde_json`.  Serialization is
modelled at the JSON-value level: a `Json` tree with the exact field
names and value shapes the serde derives produce (struct fields in
declaration order, `Option` as `null`/value, `MediaType` as its
`snake_case` string, `u64`/`i64` as numbers, `Url` as its string
form).  `tokio::fs::write` truncates the file and then writes the new
content, so a save has two filesystem-visible states. -/

inductive Json where
  | null
  | num (n : Int)
  | str (s : String)
  | arr (xs : List Json)
  | obj (fields : List (String × Json))

/-- serde encoding of a `u64`. -/
def encNat (n : Nat) : Json := .num (Int.ofNat n)

def decNat : Json → Option Nat
  | .num n => if n < 0 then none else some n.toNat
  | _ => none

def decInt : Json → Option Int
  | .num n => some n
  | _ => none

def decStr : Json → Option String
  | .str s => some s
  | _ => none

/-- serde encoding of an `Option<String>` (and of `Option<Url>`, a
`Url` serializing as its string form). -/
def encOptStr : Option String → Json
  | none => .null
  | some s => .str s

def decOptStr : Json → Option (Option String)
  | .null => some none
  | .str s => some (some s)
  | _ => none

/-- serde `snake_case` encoding of `MediaType`. -/
def encMediaType : MediaType → Json
  | .video => .str "video"
  | .photo => .str "photo"
  | .gif => .str "gif"

def decMediaType : Json → Option MediaType
  | .str s =>
    if s = "video" then some .video
    else if s = "photo" then some .photo
    else if s = "gif" then some .gif
    else none
  | _ => none

def getField (fields : List (String × Json)) (k : String) : Option Json :=
  (fields.find? (fun p => p.1 == k)).map (·.2)

def encMedia (m : Media) : Json :=
  .obj [("id", encNat m.id), ("type", encMediaType m.type),
        ("file_name", encOptStr m.file_name), ("url", encOptStr m.url)]

def decMedia (j : Json) : Option Media :=
  match j with
  | .obj fields =>
    match getField fields "id", getField fields "type",
        getField fields "file_name", getField fields "url" with
    | some ji, some jt, some jf, some ju =>
      match decNat ji, decMediaType jt, decOptStr jf, decOptStr ju with
      | some i, some t, some f, some u => some ⟨i, t, f, u⟩
      | _, _, _, _ => none
    | _, _, _, _ => none
  | _ => none

/-- Decode each element of a JSON array. -/
def decList {α : Type} (dec : Json → Option α) : List Json → Option (List α)
  | [] => some []
  | j :: js =>
    match dec j, decList dec js with
    | some a, some as => some (a :: as)
    | _, _ => none

def encTweet (t : Tweet) : Json :=
  .obj [("id", encNat t.id), ("timestamp", .num t.timestamp),
        ("text", .str t.text), ("media", .arr (t.media.map encMedia))]

def decTweet (j : Json) : Option Tweet :=
  match j with
  | .obj fields =>
    match getField fields "id", getField fields "timestamp",
        getField fields "text", getField fields "media" with
    | some ji, some jts, some jtx, some (.arr jm) =>
      match decNat ji, decInt jts, decStr jtx, decList decMedia jm with
      | some i, some ts, some tx, some ms => some ⟨i, ts, tx, ms⟩
      | _, _, _, _ => none
    | _, _, _, _ => none
  | _ => none

def encDataFile (df : DataFile) : Json :=
  .obj [("user_id", encNat df.user_id),
        ("tweets", .arr (df.tweets.map encTweet)),
        ("version", encNat df.version)]

def decDataFile (j : Json) : Option DataFile :=
  match j with
  | .obj fields =>
    match getField fields "user_id", getField fields "tweets",
        getField fields "version" with
    | some ju, some (.arr jt), some jv =>
      match decNat ju, decList decTweet jt, decNat jv with
      | some u, some ts, some v => some ⟨u, ts, v⟩
      | _, _, _ => none
    | _, _, _ => none
  | _ => none

theorem decNat_encNat (n : Nat) : decNat (encNat n) = some n := by
  simp [decNat, encNat]

theorem decOptStr_encOptStr (s : Option String) :
    decOptStr (encOptStr s) = some s := by
  cases s <;> rfl

theorem decMediaType_encMediaType (t : MediaType) :
    decMediaType (encMediaType t) = some t := by
  cases t <;> rfl

theorem decMedia_encMedia (m : Media) : decMedia (encMedia m) = some m := by
  obtain ⟨i, t, f, u⟩ := m
  simp [decMedia, encMedia, getField, decNat_encNat,
    decOptStr_encOptStr, decMediaType_encMediaType]

theorem decList_map {α : Type} (dec : Json → Option α) (enc : α → Json)
    (h : ∀ a, dec (enc a) = some a) (l : List α) :
    decList dec (l.map enc) = some l := by
  induction l with
  | nil => rfl
  | cons a l ih => simp [decList, h a, ih]

theorem decTweet_encTweet (t : Tweet) : decTweet (encTweet t) = some t := by
  obtain ⟨i, ts, tx, ms⟩ := t
  simp [decTweet, encTweet, getField, decNat_encNat, decInt, decStr,
    decList_map decMedia encMedia decMedia_encMedia]

theorem decDataFile_encDataFile (df : DataFile) :
    decDataFile (encDataFile df) = some df := by
  obtain ⟨u, ts, v⟩ := df
  simp [decDataFile, encDataFile, getField, decNat_encNat,
    decList_map decTweet encTweet decTweet_encTweet]

/-! ## Filesystem model -/

/-- Content of one file in the modelled filesystem. -/
inductive FileContent where
  | doc (j : Json)
  | truncated
  | blob (data : String)

/-- Filesystem as an association list of path to content. -/
abbrev FS := List (String × FileContent)

def getFile (fs : FS) (p : String) : Option FileContent :=
  (fs.find? (fun e => e.1 == p)).map (·.2)

def setFile (fs : FS) (p : String) (c : FileContent) : FS :=
  match fs with
  | [] => [(p, c)]
  | (q, d) :: rest => if q = p then (p, c) :: rest else (q, d) :: setFile rest p c

theorem getFile_cons_self (q : String) (c : FileContent) (fs : FS) :
    getFile ((q, c) :: fs) q = some c := by
  simp [getFile]

theorem getFile_cons_ne (q p : String) (c : FileContent) (fs : FS)
    (h : q ≠ p) : getFile ((q, c) :: fs) p = getFile fs p := by
  have hb : (q == p) = false := by simpa using h
  simp only [getFile, List.find?_cons, hb]

theorem getFile_setFile_self (fs : FS) (p : String) (c : FileContent) :
    getFile (setFile fs p c) p = some c := by
  induction fs with
  | nil => simp [setFile, getFile]
  | cons e fs ih =>
    obtain ⟨q, d⟩ := e
    by_cases h : q = p
    · rw [show setFile ((q, d) :: fs) p c = (p, c) :: fs from by
        simp [setFile, h]]
      exact getFile_cons_self p c fs
    · rw [show setFile ((q, d) :: fs) p c = (q, d) :: setFile fs p c from by
        simp [setFile, h]]
      rw [getFile_cons_ne q p d _ h]
      exact ih

theorem getFile_setFile_ne (fs : FS) (p p' : String) (c : FileContent)
    (h : p ≠ p') : getFile (setFile fs p c) p' = getFile fs p' := by
  induction fs with
  | nil =>
    show getFile [(p, c)] p' = getFile [] p'
    rw [getFile_cons_ne p p' c [] h]
  | cons e fs ih =>
    obtain ⟨q, d⟩ := e
    by_cases hq : q = p
    · rw [show setFile ((q, d) :: fs) p c = (p, c) :: fs from by
        simp [setFile, hq]]
      rw [getFile_cons_ne p p' c fs h, hq, getFile_cons_ne p p' d fs h]
    · rw [show setFile ((q, d) :: fs) p c = (q, d) :: setFile fs p c from by
        simp [setFile, hq]]
      by_cases hqp : q = p'
      · subst hqp
        rw [getFile_cons_self, getFile_cons_self]
      · rw [getFile_cons_ne q p' d _ hqp, getFile_cons_ne q p' d _ hqp]
        exact ih

theorem setFile_setFile (fs : FS) (p : String) (c c' : FileContent) :
    setFile (setFile fs p c) p c' = setFile fs p c' := by
  induction fs with
  | nil => simp [setFile]
  | cons e fs ih =>
    obtain ⟨q, d⟩ := e
    by_cases h : q = p
    · simp [setFile, h]
    · simp [setFile, h, ih]

/-- `user_dir.join("tweets.json")`. -/
def dataFilePath (user_dir : String) : String := user_dir ++ "/tweets.json"

/-- `DataFile::save` from `src/model.rs`: serialize the whole snapshot
and `fs::write` it to `tweets.json` (final filesystem state). -/
def DataFile.save (df : DataFile) (user_dir : String) (fs : FS) : FS :=
  setFile fs (dataFilePath user_dir) (.doc (encDataFile df))

/-- The filesystem states a concurrent reader can observe during
`DataFile::save`: `tokio::fs::write` opens with create+truncate (the
file momentarily holds no valid document) and then writes the full
serialized content. -/
def DataFile.saveStates (df : DataFile) (user_dir : String) (fs : FS) : List FS :=
  [setFile fs (dataFilePath user_dir) .truncated,
   setFile (setFile fs (dataFilePath user_dir) .truncated)
     (dataFilePath user_dir) (.doc (encDataFile df))]

/-- Error causes of `DataFile::load` (the `anyhow` contexts in
`src/model.rs`). -/
inductive LoadError where
  | deserializeError
  | userIdMismatch
deriving DecidableEq, Repr

/-- `Vec::sort` on tweets (stable, ordered by `Tweet::cmp`, i.e. by id). -/
def sortTweets (l : List Tweet) : List Tweet :=
  l.insertionSort (fun a b => a.id ≤ b.id)

/-- `DataFile::load` from `src/model.rs`: absent file gives `None`,
unparseable content or a stored `user_id` different from
`validate_user_id` give errors, and on success the tweets are sorted
ascending by id. -/
def DataFile.load (user_dir : String) (validate_user_id : Nat) (fs : FS) :
    Except LoadError (Option DataFile) :=
  match getFile fs (dataFilePath user_dir) with
  | none => .ok none
  | some (.doc j) =>
    match decDataFile j with
    | none => .error .deserializeError
    | some df =>
      if df.user_id ≠ validate_user_id then .error .userIdMismatch
      else .ok (some { df with tweets := sortTweets df.tweets })
  | some _ => .error .deserializeError

theorem load_of_none (dir : String) (uid : Nat) (fs : FS)
    (h : getFile fs (dataFilePath dir) = none) :
    DataFile.load dir uid fs = .ok none := by
  unfold DataFile.load
  rw [h]

theorem load_of_doc (dir : String) (uid : Nat) (fs : FS) (j : Json)
    (h : getFile fs (dataFilePath dir) = some (.doc j)) :
    DataFile.load dir uid fs =
      match decDataFile j with
      | none => .error .deserializeError
      | some df =>
        if df.user_id ≠ uid then .error .userIdMismatch
        else .ok (some { df with tweets := sortTweets df.tweets }) := by
  unfold DataFile.load
  rw [h]

/-- Claim C4: for a valid snapshot (tweets sorted ascending by id, no
duplicate ids), `save` to a directory followed by `load` from that
directory with the same account id returns `Some` of an equal snapshot. -/
theorem save_load_roundtrip (df : DataFile) (dir : String) (fs : FS)
    (hsorted : List.Sorted (fun a b : Tweet => a.id ≤ b.id) df.tweets)
    (hnodup : (df.tweets.map Tweet.id).Nodup) :
    DataFile.load dir df.user_id (df.save dir fs) =
      .ok (some df) := by
  unfold DataFile.save
  rw [load_of_doc dir df.user_id _ (encDataFile df)
    (getFile_setFile_self fs (dataFilePath dir) _)]
  rw [decDataFile_encDataFile]
  show (if df.user_id ≠ df.user_id then Except.error LoadError.userIdMismatch
    else Except.ok (some { df with tweets := sortTweets df.tweets })) =
    Except.ok (some df)
  rw [if_neg (by simp)]
  have hsort : sortTweets df.tweets = df.tweets :=
    List.Sorted.insertionSort_eq hsorted
  rw [hsort]

/-- Witness for C4 at a concrete snapshot. -/
theorem save_load_roundtrip_witness :
    DataFile.load "d" 9 (dfSample.save "d" []) = .ok (some dfSample) :=
  save_load_roundtrip dfSample "d" [] (by decide) (by decide)

/-- Claim C8: `load` returns `None` (not an error) when no snapshot
file exists, fails with the user-id-mismatch integrity error when the
stored `user_id` differs from the expected one, and on success returns
the stored snapshot with its tweets sorted ascending by id. -/
theorem load_contract (dir : String) (uid : Nat) (fs : FS) :
    (getFile fs (dataFilePath dir) = none →
      DataFile.load dir uid fs = .ok none) ∧
    (∀ j df, getFile fs (dataFilePath dir) = some (.doc j) →
      decDataFile j = some df → df.user_id ≠ uid →
      DataFile.load dir uid fs = .error .userIdMismatch) ∧
    (∀ j df, getFile fs (dataFilePath dir) = some (.doc j) →
      decDataFile j = some df → df.user_id = uid →
      DataFile.load dir uid fs =
        .ok (some { df with tweets := sortTweets df.tweets }) ∧
      List.Sorted (fun a b : Tweet => a.id ≤ b.id) (sortTweets df.tweets)) := by
  refine ⟨?_, ?_, ?_⟩
  · exact load_of_none dir uid fs
  · intro j df hget hdec hne
    rw [load_of_doc dir uid fs j hget, hdec]
    show (if df.user_id ≠ uid then Except.error LoadError.userIdMismatch
      else Except.ok (some { df with tweets := sortTweets df.tweets })) =
      Except.error LoadError.userIdMismatch
    rw [if_pos hne]
  · intro j df hget hdec heq
    constructor
    · rw [load_of_doc dir uid fs j hget, hdec]
      show (if df.user_id ≠ uid then Except.error LoadError.userIdMismatch
        else Except.ok (some { df with tweets := sortTweets df.tweets })) =
        Except.ok (some { df with tweets := sortTweets df.tweets })
      rw [if_neg (by simp [heq])]
    · haveI : IsTotal Tweet (fun a b => a.id ≤ b.id) :=
        ⟨fun a b => Nat.le_total a.id b.id⟩
      haveI : IsTrans Tweet (fun a b => a.id ≤ b.id) :=
        ⟨fun _ _ _ hab hbc => Nat.le_trans hab hbc⟩
      exact List.sorted_insertionSort _ df.tweets

/-- Witness for C8: an empty directory loads as absent; a stored
snapshot for account 9 fails integrity validation against account 8 and
loads for account 9. -/
theorem load_contract_witness :
    DataFile.load "d" 9 ([] : FS) = .ok none ∧
    DataFile.load "d" 8 (dfSample.save "d" []) =
      .error .userIdMismatch ∧
    DataFile.load "d" 9 (dfSample.save "d" []) =
      .ok (some { dfSample with tweets := sortTweets dfSample.tweets }) := by
  have hget : getFile (dfSample.save "d" []) (dataFilePath "d") =
      some (.doc (encDataFile dfSample)) := getFile_setFile_self _ _ _
  refine ⟨(load_contract "d" 9 ([] : FS)).1 rfl, ?_, ?_⟩
  · exact (load_contract "d" 8 (dfSample.save "d" [])).2.1
      (encDataFile dfSample) dfSample hget
      (decDataFile_encDataFile dfSample) (by decide)
  · exact ((load_contract "d" 9 (dfSample.save "d" [])).2.2
      (encDataFile dfSample) dfSample hget
      (decDataFile_encDataFile dfSample) rfl).1

/-- Claim C9 (counterexample): `DataFile::save` is `fs::write`, which
truncates and then writes; the intermediate filesystem-visible state
holds neither the old nor the new snapshot content, so the replacement
is not a single filesystem-visible step. -/
theorem snapshot_save_atomicity_counterexample :
    ∃ s ∈ DataFile.saveStates dfSample "d" (dfSample.save "d" []),
      getFile s (dataFilePath "d") ≠
        getFile (dfSample.save "d" []) (dataFilePath "d") ∧
      getFile s (dataFilePath "d") ≠ some (.doc (encDataFile dfSample)) := by
  refine ⟨setFile (dfSample.save "d" []) (dataFilePath "d") .truncated,
    List.mem_cons_self _ _, ?_, ?_⟩
  · rw [getFile_setFile_self]
    rw [show getFile (dfSample.save "d" []) (dataFilePath "d") =
      some (.doc (encDataFile dfSample)) from getFile_setFile_self _ _ _]
    simp
  · rw [getFile_setFile_self]
    simp

/-- Claim C9 (amended): `save` builds the complete serialized snapshot
and writes it with truncate-then-write.  The final state holds the full
new serialization and no other path is touched at any visible state,
but there is an intermediate visible state in which the snapshot file
is truncated, so the replacement is not one filesystem-visible step. -/
theorem snapshot_save_truncate_then_write (df : DataFile) (dir : String)
    (fs : FS) :
    df.saveStates dir fs =
      [setFile fs (dataFilePath dir) .truncated, df.save dir fs] ∧
    getFile (df.save dir fs) (dataFilePath dir) =
      some (.doc (encDataFile df)) ∧
    (∀ p, p ≠ dataFilePath dir → getFile (df.save dir fs) p = getFile fs p) ∧
    (∀ s ∈ df.saveStates dir fs, ∀ p, p ≠ dataFilePath dir →
      getFile s p = getFile fs p) := by
  refine ⟨?_, getFile_setFile_self _ _ _, ?_, ?_⟩
  · unfold DataFile.saveStates DataFile.save
    rw [setFile_setFile]
  · intro p hp
    exact getFile_setFile_ne fs (dataFilePath dir) p _ (Ne.symm hp)
  · intro s hs p hp
    rcases List.mem_cons.mp hs with rfl | hs
    · exact getFile_setFile_ne fs (dataFilePath dir) p _ (Ne.symm hp)
    · rcases List.mem_cons.mp hs with rfl | hs
      · rw [getFile_setFile_ne _ (dataFilePath dir) p _ (Ne.symm hp)]
        exact getFile_setFile_ne fs (dataFilePath dir) p _ (Ne.symm hp)
      · simp at hs

/-- Witness for the amended C9 at a concrete snapshot and path. -/
theorem snapshot_save_truncate_then_write_witness :
    getFile (dfSample.save "d" []) (dataFilePath "d") =
      some (.doc (encDataFile dfSample)) ∧
    getFile (dfSample.save "d" []) "other" = getFile ([] : FS) "other" := by
  have h := snapshot_save_truncate_then_write dfSample "d" []
  exact ⟨h.2.1, h.2.2.1 "other" (by decide)⟩

/-! ## The download task (`src/download_task.rs`)

`download_impl` creates a named scratch file in the destination's
parent directory, streams the response body into it chunk by chunk,
flushes, applies the collision check, and only then atomically renames
the scratch file onto the destination.  The scratch file has a fresh
name and is deleted on every early return (`NamedTempFile` drop), so
the modelled filesystem tracks only real destination paths; the scratch
activity is recorded in an event trace.  Fallible local file operations
are represented by an explicit fault description. -/

/-- `DownloadError` from `src/download_task.rs`. -/
inductive DownloadError where
  | destinationExists (path : String)
  | fileError
  | invalidDestination (path : String)
  | requestError
  | badResponse (status : Nat) (url : String)
deriving DecidableEq, Repr

/-- `CompletedDownload` from `src/download_task.rs`. -/
structure CompletedDownload where
  saved_at : String
  written : Nat
deriving DecidableEq, Repr

/-- A destination `PathBuf` together with its `parent()`. -/
structure Dest where
  path : String
  parent : Option String
deriving DecidableEq, Repr

/-- What the HTTP GET of the media URL produces: a transport failure on
send, or a response with a status and a body streamed as chunks;
`truncated` means the connection dies after the listed chunks (the next
`chunk()` call fails). -/
inductive HttpResult where
  | sendFailure
  | response (status : Nat) (chunks : List String) (truncated : Bool)
deriving DecidableEq, Repr

/-- Failure injection for the fallible local file operations of
`download_impl`. -/
structure FileFaults where
  tempCreate : Bool
  writeAt : Option Nat
  flush : Bool
  persist : Bool
deriving DecidableEq, Repr

/-- Scratch-file events of one `download_impl` run. -/
inductive Ev where
  | tempCreate (dir : String)
  | write (bytes : String)
  | flush
  | rename (dir : String) (dst : String)
deriving DecidableEq, Repr

/-- `request.status().is_success()`. -/
def isSuccessStatus (s : Nat) : Bool := 200 ≤ s && s ≤ 299

/-- Result of the chunk-writing loop (`while let Some(chunk) = ...`):
scratch events, the `written` counter, the bytes received over the
network, and whether every write succeeded. -/
structure WriteOut where
  events : List Ev
  written : Nat
  fetched : Nat
  ok : Bool
deriving DecidableEq, Repr

def writeChunks : List String → Option Nat → Nat → WriteOut
  | [], _, _ => ⟨[], 0, 0, true⟩
  | c :: cs, writeAt, i =>
    if writeAt = some i then ⟨[], 0, c.length, false⟩
    else
      let r := writeChunks cs writeAt (i + 1)
      ⟨Ev.write c :: r.events, c.length + r.written, c.length + r.fetched, r.ok⟩

/-- Observable result of one `download_impl` run. -/
structure DownloadResult where
  result : Except DownloadError CompletedDownload
  fs : FS
  events : List Ev
  bytesFetched : Nat

/-- `download_impl` from `src/download_task.rs`. -/
def download_impl (destination : Dest) (url : String) (resp : HttpResult)
    (faults : FileFaults) (overwrite : Bool) (fs : FS) : DownloadResult :=
  match destination.parent with
  | none => ⟨.error (.invalidDestination destination.path), fs, [], 0⟩
  | some parent =>
    if faults.tempCreate then ⟨.error .fileError, fs, [], 0⟩
    else
      match resp with
      | .sendFailure => ⟨.error .requestError, fs, [.tempCreate parent], 0⟩
      | .response status chunks truncated =>
        if ¬ isSuccessStatus status then
          ⟨.error (.badResponse status url), fs, [.tempCreate parent], 0⟩
        else
          let w := writeChunks chunks faults.writeAt 0
          if ¬ w.ok then
            ⟨.error .fileError, fs, .tempCreate parent :: w.events, w.fetched⟩
          else if truncated then
            ⟨.error .requestError, fs, .tempCreate parent :: w.events, w.fetched⟩
          else if faults.flush then
            ⟨.error .fileError, fs, .tempCreate parent :: w.events, w.fetched⟩
          else if ¬ overwrite ∧ (getFile fs destination.path).isSome then
            ⟨.error (.destinationExists destination.path), fs,
              .tempCreate parent :: w.events ++ [.flush], w.fetched⟩
          else if faults.persist then
            ⟨.error .fileError, fs,
              .tempCreate parent :: w.events ++ [.flush], w.fetched⟩
          else
            ⟨.ok ⟨destination.path, w.written⟩,
              setFile fs destination.path (.blob (String.join chunks)),
              .tempCreate parent :: w.events ++
                [.flush, .rename parent destination.path],
              w.fetched⟩

theorem writeChunks_ok (chunks : List String) (writeAt : Option Nat)
    (i : Nat) (h : (writeChunks chunks writeAt i).ok = true) :
    (writeChunks chunks writeAt i).events = chunks.map Ev.write ∧
    (writeChunks chunks writeAt i).written = (chunks.map String.length).sum ∧
    (writeChunks chunks writeAt i).fetched = (chunks.map String.length).sum := by
  induction chunks generalizing i with
  | nil => exact ⟨rfl, rfl, rfl⟩
  | cons c cs ih =>
    by_cases hw : writeAt = some i
    · rw [show writeChunks (c :: cs) writeAt i = ⟨[], 0, c.length, false⟩ from by
        simp [writeChunks, hw]] at h
      simp at h
    · rw [show writeChunks (c :: cs) writeAt i =
        ⟨Ev.write c :: (writeChunks cs writeAt (i + 1)).events,
         c.length + (writeChunks cs writeAt (i + 1)).written,
         c.length + (writeChunks cs writeAt (i + 1)).fetched,
         (writeChunks cs writeAt (i + 1)).ok⟩ from by
        simp [writeChunks, hw]] at h ⊢
      obtain ⟨h1, h2, h3⟩ := ih (i + 1) h
      simp [h1, h2, h3]

/-- Claim C5: every failing run of `download_impl` (invalid destination,
scratch-file fault, transport failure, unsuccessful status, mid-stream
truncation, collision, failed rename) leaves the filesystem unchanged —
in particular nothing is created or modified at the destination path —
and every successful run writes the destination in one step with the
complete response body, with a scratch-file trace of the shape
create-in-parent, write every chunk, flush, rename-into-destination. -/
theorem download_atomicity (destination : Dest) (url : String)
    (resp : HttpResult) (faults : FileFaults) (overwrite : Bool) (fs : FS) :
    (∀ e, (download_impl destination url resp faults overwrite fs).result =
        .error e →
      (download_impl destination url resp faults overwrite fs).fs = fs) ∧
    (∀ c, (download_impl destination url resp faults overwrite fs).result =
        .ok c →
      ∃ parent status chunks truncated,
        destination.parent = some parent ∧
        resp = .response status chunks truncated ∧
        c = ⟨destination.path, (chunks.map String.length).sum⟩ ∧
        (download_impl destination url resp faults overwrite fs).fs =
          setFile fs destination.path (.blob (String.join chunks)) ∧
        (download_impl destination url resp faults overwrite fs).events =
          .tempCreate parent :: chunks.map Ev.write ++
            [.flush, .rename parent destination.path]) := by
  rcases hp : destination.parent with _ | parent
  · have hD : download_impl destination url resp faults overwrite fs =
        ⟨.error (.invalidDestination destination.path), fs, [], 0⟩ := by
      simp [download_impl, hp]
    refine ⟨fun e _ => by rw [hD], fun c hc => ?_⟩
    rw [hD] at hc
    simp at hc
  by_cases hf1 : faults.tempCreate = true
  · have hD : download_impl destination url resp faults overwrite fs =
        ⟨.error .fileError, fs, [], 0⟩ := by
      simp [download_impl, hp, hf1]
    refine ⟨fun e _ => by rw [hD], fun c hc => ?_⟩
    rw [hD] at hc
    simp at hc
  rcases hr : resp with _ | ⟨status, chunks, truncated⟩
  · have hD : download_impl destination url HttpResult.sendFailure faults
        overwrite fs =
        ⟨.error .requestError, fs, [.tempCreate parent], 0⟩ := by
      simp [download_impl, hp, hf1]
    refine ⟨fun e _ => by rw [hD], fun c hc => ?_⟩
    rw [hD] at hc
    simp at hc
  by_cases hst : isSuccessStatus status = true
  case neg =>
    have hD : download_impl destination url (HttpResult.response status chunks truncated)
        faults overwrite fs =
        ⟨.error (.badResponse status url), fs, [.tempCreate parent], 0⟩ := by
      simp [download_impl, hp, hf1, hst]
    refine ⟨fun e _ => by rw [hD], fun c hc => ?_⟩
    rw [hD] at hc
    simp at hc
  case pos =>
  by_cases hok : (writeChunks chunks faults.writeAt 0).ok = true
  case neg =>
    have hD : download_impl destination url (HttpResult.response status chunks truncated)
        faults overwrite fs =
        ⟨.error .fileError, fs,
          .tempCreate parent :: (writeChunks chunks faults.writeAt 0).events,
          (writeChunks chunks faults.writeAt 0).fetched⟩ := by
      simp [download_impl, hp, hf1, hst, hok]
    refine ⟨fun e _ => by rw [hD], fun c hc => ?_⟩
    rw [hD] at hc
    simp at hc
  case pos =>
  by_cases htr : truncated = true
  case pos =>
    have hD : download_impl destination url (HttpResult.response status chunks truncated)
        faults overwrite fs =
        ⟨.error .requestError, fs,
          .tempCreate parent :: (writeChunks chunks faults.writeAt 0).events,
          (writeChunks chunks faults.writeAt 0).fetched⟩ := by
      simp [download_impl, hp, hf1, hst, hok, htr]
    refine ⟨fun e _ => by rw [hD], fun c hc => ?_⟩
    rw [hD] at hc
    simp at hc
  case neg =>
  by_cases hfl : faults.flush = true
  case pos =>
    have hD : download_impl destination url (HttpResult.response status chunks truncated)
        faults overwrite fs =
        ⟨.error .fileError, fs,
          .tempCreate parent :: (writeChunks chunks faults.writeAt 0).events,
          (writeChunks chunks faults.writeAt 0).fetched⟩ := by
      simp [download_impl, hp, hf1, hst, hok, htr, hfl]
    refine ⟨fun e _ => by rw [hD], fun c hc => ?_⟩
    rw [hD] at hc
    simp at hc
  case neg =>
  by_cases hcol : ¬ overwrite = true ∧ (getFile fs destination.path).isSome = true
  case pos =>
    have hD : download_impl destination url (HttpResult.response status chunks truncated)
        faults overwrite fs =
        ⟨.error (.destinationExists destination.path), fs,
          .tempCreate parent :: (writeChunks chunks faults.writeAt 0).events ++
            [.flush],
          (writeChunks chunks faults.writeAt 0).fetched⟩ := by
      simp [download_impl, hp, hf1, hst, hok, htr, hfl, hcol]
    refine ⟨fun e _ => by rw [hD], fun c hc => ?_⟩
    rw [hD] at hc
    simp at hc
  case neg =>
  by_cases hper : faults.persist = true
  case pos =>
    have hD : download_impl destination url (HttpResult.response status chunks truncated)
        faults overwrite fs =
        ⟨.error .fileError, fs,
          .tempCreate parent :: (writeChunks chunks faults.writeAt 0).events ++
            [.flush],
          (writeChunks chunks faults.writeAt 0).fetched⟩ := by
      simp [download_impl, hp, hf1, hst, hok, htr, hfl, hper]
      intro how
      cases hgf : getFile fs destination.path with
      | none => rfl
      | some v => exact absurd ⟨by simp [how], by simp [hgf]⟩ hcol
    refine ⟨fun e _ => by rw [hD], fun c hc => ?_⟩
    rw [hD] at hc
    simp at hc
  case neg =>
    obtain ⟨hev, hwr, _⟩ := writeChunks_ok chunks faults.writeAt 0 hok
    have hD : download_impl destination url (HttpResult.response status chunks truncated)
        faults overwrite fs =
        ⟨.ok ⟨destination.path, (writeChunks chunks faults.writeAt 0).written⟩,
          setFile fs destination.path (.blob (String.join chunks)),
          .tempCreate parent :: (writeChunks chunks faults.writeAt 0).events ++
            [.flush, .rename parent destination.path],
          (writeChunks chunks faults.writeAt 0).fetched⟩ := by
      simp [download_impl, hp, hf1, hst, hok, htr, hfl, hper]
      intro how
      cases hgf : getFile fs destination.path with
      | none => rfl
      | some v => exact absurd ⟨by simp [how], by simp [hgf]⟩ hcol
    refine ⟨fun e he => ?_, fun c hc => ?_⟩
    · rw [hD] at he
      simp at he
    · rw [hD] at hc
      simp only [Except.ok.injEq] at hc
      refine ⟨parent, status, chunks, truncated, rfl, rfl, ?_, by rw [hD], ?_⟩
      · rw [← hc, hwr]
      · rw [hD, hev]

instance {ε α : Type} [DecidableEq ε] [DecidableEq α] :
    DecidableEq (Except ε α)
  | .error a, .error b =>
    if h : a = b then .isTrue (by rw [h])
    else .isFalse (by intro hc; injection hc; contradiction)
  | .error _, .ok _ => .isFalse (by intro hc; exact Except.noConfusion hc)
  | .ok _, .error _ => .isFalse (by intro hc; exact Except.noConfusion hc)
  | .ok a, .ok b =>
    if h : a = b then .isTrue (by rw [h])
    else .isFalse (by intro hc; injection hc; contradiction)

def destW : Dest := ⟨"u/1_1.jpg", some "u"⟩

def noFaults : FileFaults := ⟨false, none, false, false⟩

/-- Witness for C5: a mid-stream truncated transfer leaves the (empty)
filesystem untouched — no file at the destination — while a complete
transfer installs the full two-chunk body at the destination. -/
theorem download_atomicity_witness :
    (download_impl destW "url" (.response 200 ["ab"] true) noFaults true []).fs
      = ([] : FS) ∧
    (download_impl destW "url" (.response 200 ["ab", "cd"] false) noFaults
        true []).fs
      = setFile [] destW.path (.blob (String.join ["ab", "cd"])) := by
  have h1 := (download_atomicity destW "url" (.response 200 ["ab"] true)
    noFaults true []).1
  have h2 := (download_atomicity destW "url" (.response 200 ["ab", "cd"] false)
    noFaults true []).2
  constructor
  · exact h1 DownloadError.requestError (by decide)
  · obtain ⟨p, s, cs, tr, hpar, hresp, hcomp, hfs, hev⟩ :=
      h2 ⟨"u/1_1.jpg", 4⟩ (by decide)
    cases hresp
    exact hfs

/-! ## Collision policy and the outcome-consuming loop
(`src/download/mod.rs`) -/

/-- Modelled from the spec: `FileExistsPolicy` is the CLI file-collision
policy selector.  Its Rust definition lives in the variant of `main.rs`
that accompanies `src/download/mod.rs` and is not present under `src/`;
its three variants `Overwrite`, `Warn`, `Adopt` and their meaning are
fixed by the spec (§4.2) and by the uses in `src/download/mod.rs`. -/
inductive FileExistsPolicy where
  | overwrite
  | warn
  | adopt
deriving DecidableEq, Repr

/-- `DownloadContext` from `src/download/mod.rs`. -/
structure DownloadContext where
  tweet_index : Nat
  media_index : Nat
  filename : String
deriving DecidableEq, Repr

/-- One delivered download outcome paired with its context. -/
abbrev Outcome := Except DownloadError CompletedDownload × DownloadContext

/-- `data_file.tweets[ctx.tweet_index].media[ctx.media_index].file_name =
Some(ctx.filename)`. -/
def bindFileName (df : DataFile) (ctx : DownloadContext) : DataFile :=
  { df with
    tweets := List.modify
      (fun t =>
        { t with
          media := List.modify
            (fun m => { m with file_name := some ctx.filename })
            ctx.media_index t.media })
      ctx.tweet_index df.tweets }

/-- The `while let Some((result, ctx)) = buffered.next()` loop of
`download_account`: each outcome is bound and incrementally saved
(save failures are ignored, `.ok()`), skipped, or aborts the loop,
according to the match arms of the source.  `saveFail` injects the
outcome of each incremental save attempt (numbered from `s`);
`n` is the `counter` variable. -/
def consumeOutcomes (policy : FileExistsPolicy) (user_dir : String)
    (saveFail : Nat → Bool) :
    List Outcome → DataFile → FS → Nat → Nat →
      Except DownloadError Unit × DataFile × FS × Nat
  | [], df, fs, n, _ => (.ok (), df, fs, n)
  | (res, ctx) :: rest, df, fs, n, s =>
    match res with
    | .ok _ =>
      let df' := bindFileName df ctx
      let fs' := if saveFail s then fs else df'.save user_dir fs
      consumeOutcomes policy user_dir saveFail rest df' fs' (n + 1) (s + 1)
    | .error e =>
      match e with
      | .destinationExists _ =>
        if policy = .adopt then
          let df' := bindFileName df ctx
          let fs' := if saveFail s then fs else df'.save user_dir fs
          consumeOutcomes policy user_dir saveFail rest df' fs' n (s + 1)
        else if policy = .warn then
          consumeOutcomes policy user_dir saveFail rest df fs n s
        else (.error e, df, fs, n)
      | .badResponse c _ =>
        if c = 404 then consumeOutcomes policy user_dir saveFail rest df fs n s
        else (.error e, df, fs, n)
      | _ => (.error e, df, fs, n)

theorem writeChunks_none_ok (chunks : List String) (i : Nat) :
    (writeChunks chunks none i).ok = true := by
  induction chunks generalizing i with
  | nil => rfl
  | cons c cs ih =>
    simp only [writeChunks, reduceCtorEq, if_false]
    exact ih (i + 1)

def fsWithDest : FS := [("u/1_1.jpg", .blob "old")]

/-- Claim C6 (counterexample): under `Warn`/`Adopt` (`overwrite =
false`) with the destination already present, `download_impl` still
fetches the whole response body (5 bytes here) before the existence
check, and only then fails with `DestinationExists` — so adopting an
existing file does not happen "without a transfer occurring". -/
theorem collision_policy_counterexample :
    (download_impl destW "url" (.response 200 ["abcde"] false) noFaults
        false fsWithDest).result = .error (.destinationExists "u/1_1.jpg") ∧
    (download_impl destW "url" (.response 200 ["abcde"] false) noFaults
        false fsWithDest).bytesFetched = 5 ∧
    ¬ (download_impl destW "url" (.response 200 ["abcde"] false) noFaults
        false fsWithDest).bytesFetched = 0 := by
  decide

/-- Claim C6 (amended): with the destination already present and a
successful fault-free response — under `Warn`/`Adopt` (`overwrite =
false`) the job fails with `DestinationExists`, the filesystem (hence
the existing file) is untouched, and the whole body was nevertheless
fetched; under `Overwrite` (`overwrite = true`) the transfer succeeds
and the destination's content is replaced unconditionally; the
consumer treats `DestinationExists` under `Warn` as non-fatal and
leaves the record unchanged, and under `Adopt` as non-fatal, binding
`file_name` onto the record without any write to the destination. -/
theorem collision_policy_amended (dest : Dest) (parent : String)
    (url : String) (chunks : List String) (fs : FS)
    (hp : dest.parent = some parent)
    (hex : (getFile fs dest.path).isSome = true) :
    ((download_impl dest url (.response 200 chunks false) noFaults
        false fs).result = .error (.destinationExists dest.path) ∧
      (download_impl dest url (.response 200 chunks false) noFaults
        false fs).fs = fs ∧
      (download_impl dest url (.response 200 chunks false) noFaults
        false fs).bytesFetched = (chunks.map String.length).sum) ∧
    ((download_impl dest url (.response 200 chunks false) noFaults
        true fs).result = .ok ⟨dest.path, (chunks.map String.length).sum⟩ ∧
      (download_impl dest url (.response 200 chunks false) noFaults
        true fs).fs = setFile fs dest.path (.blob (String.join chunks))) ∧
    (∀ (dir : String) (df : DataFile) (ctx : DownloadContext)
        (sf : Nat → Bool) (n s : Nat),
      consumeOutcomes .warn dir sf
          [(.error (.destinationExists dest.path), ctx)] df fs n s =
        (.ok (), df, fs, n) ∧
      consumeOutcomes .adopt dir sf
          [(.error (.destinationExists dest.path), ctx)] df fs n s =
        (.ok (), bindFileName df ctx,
          if sf s then fs else (bindFileName df ctx).save dir fs, n)) := by
  have hok := writeChunks_none_ok chunks 0
  obtain ⟨hev, hwr, hfe⟩ := writeChunks_ok chunks none 0 hok
  refine ⟨?_, ?_, ?_⟩
  · have hD : download_impl dest url (.response 200 chunks false) noFaults
        false fs =
        ⟨.error (.destinationExists dest.path), fs,
          .tempCreate parent :: (writeChunks chunks none 0).events ++ [.flush],
          (writeChunks chunks none 0).fetched⟩ := by
      simp [download_impl, hp, noFaults, isSuccessStatus, hok, hex]
    rw [hD, hfe]
    exact ⟨rfl, rfl, rfl⟩
  · have hD : download_impl dest url (.response 200 chunks false) noFaults
        true fs =
        ⟨.ok ⟨dest.path, (writeChunks chunks none 0).written⟩,
          setFile fs dest.path (.blob (String.join chunks)),
          .tempCreate parent :: (writeChunks chunks none 0).events ++
            [.flush, .rename parent dest.path],
          (writeChunks chunks none 0).fetched⟩ := by
      simp [download_impl, hp, noFaults, isSuccessStatus, hok]
    rw [hD, hwr]
    exact ⟨rfl, rfl⟩
  · intro dir df ctx sf n s
    constructor
    · simp [consumeOutcomes]
    · simp [consumeOutcomes]

/-- Witness for the amended C6 at a concrete world. -/
theorem collision_policy_amended_witness :
    (download_impl destW "url" (.response 200 ["abcde"] false) noFaults
        false fsWithDest).result = .error (.destinationExists destW.path) ∧
    (download_impl destW "url" (.response 200 ["abcde"] false) noFaults
        true fsWithDest).fs =
      setFile fsWithDest destW.path (.blob (String.join ["abcde"])) ∧
    consumeOutcomes .adopt "u" (fun _ => false)
        [(.error (.destinationExists destW.path), ⟨0, 0, "1_1.jpg"⟩)]
        dfSample fsWithDest 0 0 =
      (.ok (), bindFileName dfSample ⟨0, 0, "1_1.jpg"⟩,
        (bindFileName dfSample ⟨0, 0, "1_1.jpg"⟩).save "u" fsWithDest, 0) := by
  have h := collision_policy_amended destW "u" "url" ["abcde"] fsWithDest
    rfl (by decide)
  refine ⟨h.1.1, h.2.1.2, ?_⟩
  have h3 := (h.2.2 "u" dfSample ⟨0, 0, "1_1.jpg"⟩ (fun _ => false) 0 0).2
  simpa using h3

/-! ## Per-item versus fatal outcomes (claim C7) -/

/-- The outcomes the consuming loop treats as per-item and non-fatal:
a completed download, `DestinationExists` under `Adopt` or `Warn`, and
a 404 `BadResponse`.  Everything else hits the catch-all arm and aborts
the loop. -/
def nonFatalOutcome (policy : FileExistsPolicy)
    (res : Except DownloadError CompletedDownload) : Prop :=
  match res with
  | .ok _ => True
  | .error (.destinationExists _) => policy = .adopt ∨ policy = .warn
  | .error (.badResponse c _) => c = 404
  | .error _ => False

instance (policy : FileExistsPolicy)
    (res : Except DownloadError CompletedDownload) :
    Decidable (nonFatalOutcome policy res) :=
  match res with
  | .ok _ => .isTrue trivial
  | .error (.destinationExists _) =>
    inferInstanceAs (Decidable (policy = .adopt ∨ policy = .warn))
  | .error (.badResponse c _) => inferInstanceAs (Decidable (c = 404))
  | .error .fileError => .isFalse (fun h => h)
  | .error (.invalidDestination _) => .isFalse (fun h => h)
  | .error .requestError => .isFalse (fun h => h)

/-- The record update a non-fatal outcome performs on the in-memory
data file. -/
def applyOutcome (policy : FileExistsPolicy) (df : DataFile)
    (o : Outcome) : DataFile :=
  match o.1 with
  | .ok _ => bindFileName df o.2
  | .error (.destinationExists _) =>
    if policy = .adopt then bindFileName df o.2 else df
  | .error _ => df

def applyOutcomes (policy : FileExistsPolicy) (df : DataFile)
    (outcomes : List Outcome) : DataFile :=
  outcomes.foldl (applyOutcome policy) df

theorem consume_nonfatal (policy : FileExistsPolicy) (dir : String) :
    ∀ (outcomes : List Outcome) (df : DataFile) (fs : FS) (n s : Nat),
    (∀ o ∈ outcomes, nonFatalOutcome policy o.1) →
    getFile fs (dataFilePath dir) = some (.doc (encDataFile df)) →
    (consumeOutcomes policy dir (fun _ => false) outcomes df fs n s).1 =
      .ok () ∧
    (consumeOutcomes policy dir (fun _ => false) outcomes df fs n s).2.1 =
      applyOutcomes policy df outcomes ∧
    getFile (consumeOutcomes policy dir (fun _ => false)
        outcomes df fs n s).2.2.1 (dataFilePath dir) =
      some (.doc (encDataFile (applyOutcomes policy df outcomes)))
  | [], df, fs, n, s, _, hfs => ⟨rfl, rfl, hfs⟩
  | (res, ctx) :: rest, df, fs, n, s, hnf, hfs => by
    have hhead := hnf (res, ctx) (List.mem_cons_self _ _)
    have htail : ∀ o ∈ rest, nonFatalOutcome policy o.1 :=
      fun o ho => hnf o (List.mem_cons_of_mem _ ho)
    match res with
    | .ok c =>
      have hstep : consumeOutcomes policy dir (fun _ => false)
          ((.ok c, ctx) :: rest) df fs n s =
          consumeOutcomes policy dir (fun _ => false) rest
            (bindFileName df ctx) ((bindFileName df ctx).save dir fs)
            (n + 1) (s + 1) := by
        simp [consumeOutcomes]
      have happ : applyOutcomes policy df ((.ok c, ctx) :: rest) =
          applyOutcomes policy (bindFileName df ctx) rest := rfl
      rw [hstep, happ]
      exact consume_nonfatal policy dir rest (bindFileName df ctx) _ _ _
        htail (getFile_setFile_self _ _ _)
    | .error (.destinationExists p) =>
      rcases hhead with hpol | hpol
      · subst hpol
        have hstep : consumeOutcomes .adopt dir (fun _ => false)
            ((.error (.destinationExists p), ctx) :: rest) df fs n s =
            consumeOutcomes .adopt dir (fun _ => false) rest
              (bindFileName df ctx) ((bindFileName df ctx).save dir fs)
              n (s + 1) := by
          simp [consumeOutcomes]
        have happ : applyOutcomes .adopt df
            ((.error (.destinationExists p), ctx) :: rest) =
            applyOutcomes .adopt (bindFileName df ctx) rest := by
          simp [applyOutcomes, applyOutcome]
        rw [hstep, happ]
        exact consume_nonfatal .adopt dir rest (bindFileName df ctx) _ _ _
          htail (getFile_setFile_self _ _ _)
      · subst hpol
        have hstep : consumeOutcomes .warn dir (fun _ => false)
            ((.error (.destinationExists p), ctx) :: rest) df fs n s =
            consumeOutcomes .warn dir (fun _ => false) rest df fs n s := by
          simp [consumeOutcomes]
        have happ : applyOutcomes .warn df
            ((.error (.destinationExists p), ctx) :: rest) =
            applyOutcomes .warn df rest := by
          simp [applyOutcomes, applyOutcome]
        rw [hstep, happ]
        exact consume_nonfatal .warn dir rest df fs n s htail hfs
    | .error (.badResponse c u) =>
      have hc : c = 404 := hhead
      subst hc
      have hstep : consumeOutcomes policy dir (fun _ => false)
          ((.error (.badResponse 404 u), ctx) :: rest) df fs n s =
          consumeOutcomes policy dir (fun _ => false) rest df fs n s := by
        simp [consumeOutcomes]
      have happ : applyOutcomes policy df
          ((.error (.badResponse 404 u), ctx) :: rest) =
          applyOutcomes policy df rest := rfl
      rw [hstep, happ]
      exact consume_nonfatal policy dir rest df fs n s htail hfs
    | .error .fileError => exact absurd hhead (fun h => h)
    | .error (.invalidDestination p) => exact absurd hhead (fun h => h)
    | .error .requestError => exact absurd hhead (fun h => h)

theorem consume_fatal (policy : FileExistsPolicy) (dir : String) :
    ∀ (pre : List Outcome) (o : Outcome) (rest : List Outcome)
      (df : DataFile) (fs : FS) (n s : Nat),
    (∀ p ∈ pre, nonFatalOutcome policy p.1) →
    ¬ nonFatalOutcome policy o.1 →
    getFile fs (dataFilePath dir) = some (.doc (encDataFile df)) →
    ∃ e, o.1 = .error e ∧
    (consumeOutcomes policy dir (fun _ => false)
        (pre ++ o :: rest) df fs n s).1 = .error e ∧
    (consumeOutcomes policy dir (fun _ => false)
        (pre ++ o :: rest) df fs n s).2.1 = applyOutcomes policy df pre ∧
    getFile (consumeOutcomes policy dir (fun _ => false)
        (pre ++ o :: rest) df fs n s).2.2.1 (dataFilePath dir) =
      some (.doc (encDataFile (applyOutcomes policy df pre)))
  | [], (res, ctx), rest, df, fs, n, s, _, hfat, hfs => by
    match res with
    | .ok c => exact absurd trivial hfat
    | .error (.destinationExists p) =>
      have h1 : ¬ policy = .adopt := fun h => hfat (Or.inl h)
      have h2 : ¬ policy = .warn := fun h => hfat (Or.inr h)
      refine ⟨.destinationExists p, rfl, ?_, ?_, ?_⟩ <;>
        simp [consumeOutcomes, h1, h2, applyOutcomes, hfs]
    | .error (.badResponse c u) =>
      have h1 : ¬ c = 404 := hfat
      refine ⟨.badResponse c u, rfl, ?_, ?_, ?_⟩ <;>
        simp [consumeOutcomes, h1, applyOutcomes, hfs]
    | .error .fileError =>
      refine ⟨.fileError, rfl, ?_, ?_, ?_⟩ <;>
        simp [consumeOutcomes, applyOutcomes, hfs]
    | .error (.invalidDestination p) =>
      refine ⟨.invalidDestination p, rfl, ?_, ?_, ?_⟩ <;>
        simp [consumeOutcomes, applyOutcomes, hfs]
    | .error .requestError =>
      refine ⟨.requestError, rfl, ?_, ?_, ?_⟩ <;>
        simp [consumeOutcomes, applyOutcomes, hfs]
  | (res, ctx) :: pre, o, rest, df, fs, n, s, hnf, hfat, hfs => by
    have hhead := hnf (res, ctx) (List.mem_cons_self _ _)
    have htail : ∀ p ∈ pre, nonFatalOutcome policy p.1 :=
      fun p hp => hnf p (List.mem_cons_of_mem _ hp)
    match res with
    | .ok c =>
      have hstep : consumeOutcomes policy dir (fun _ => false)
          (((.ok c, ctx) :: pre) ++ o :: rest) df fs n s =
          consumeOutcomes policy dir (fun _ => false) (pre ++ o :: rest)
            (bindFileName df ctx) ((bindFileName df ctx).save dir fs)
            (n + 1) (s + 1) := by
        simp [consumeOutcomes]
      have happ : applyOutcomes policy df ((.ok c, ctx) :: pre) =
          applyOutcomes policy (bindFileName df ctx) pre := rfl
      rw [hstep, happ]
      exact consume_fatal policy dir pre o rest (bindFileName df ctx) _ _ _
        htail hfat (getFile_setFile_self _ _ _)
    | .error (.destinationExists p) =>
      rcases hhead with hpol | hpol
      · subst hpol
        have hstep : consumeOutcomes .adopt dir (fun _ => false)
            (((.error (.destinationExists p), ctx) :: pre) ++ o :: rest)
            df fs n s =
            consumeOutcomes .adopt dir (fun _ => false) (pre ++ o :: rest)
              (bindFileName df ctx) ((bindFileName df ctx).save dir fs)
              n (s + 1) := by
          simp [consumeOutcomes]
        have happ : applyOutcomes .adopt df
            ((.error (.destinationExists p), ctx) :: pre) =
            applyOutcomes .adopt (bindFileName df ctx) pre := by
          simp [applyOutcomes, applyOutcome]
        rw [hstep, happ]
        exact consume_fatal .adopt dir pre o rest (bindFileName df ctx) _ _ _
          htail hfat (getFile_setFile_self _ _ _)
      · subst hpol
        have hstep : consumeOutcomes .warn dir (fun _ => false)
            (((.error (.destinationExists p), ctx) :: pre) ++ o :: rest)
            df fs n s =
            consumeOutcomes .warn dir (fun _ => false) (pre ++ o :: rest)
              df fs n s := by
          simp [consumeOutcomes]
        have happ : applyOutcomes .warn df
            ((.error (.destinationExists p), ctx) :: pre) =
            applyOutcomes .warn df pre := by
          simp [applyOutcomes, applyOutcome]
        rw [hstep, happ]
        exact consume_fatal .warn dir pre o rest df fs n s htail hfat hfs
    | .error (.badResponse c u) =>
      have hc : c = 404 := hhead
      subst hc
      have hstep : consumeOutcomes policy dir (fun _ => false)
          (((.error (.badResponse 404 u), ctx) :: pre) ++ o :: rest)
          df fs n s =
          consumeOutcomes policy dir (fun _ => false) (pre ++ o :: rest)
            df fs n s := by
        simp [consumeOutcomes]
      have happ : applyOutcomes policy df
          ((.error (.badResponse 404 u), ctx) :: pre) =
          applyOutcomes policy df pre := rfl
      rw [hstep, happ]
      exact consume_fatal policy dir pre o rest df fs n s htail hfat hfs
    | .error .fileError => exact absurd hhead (fun h => h)
    | .error (.invalidDestination p) => exact absurd hhead (fun h => h)
    | .error .requestError => exact absurd hhead (fun h => h)

/-- Claim C7: in the outcome-consuming loop of `download_account`, with
the snapshot already saved, a list of per-item non-fatal outcomes
(`AlreadyExists` under `Warn`/`Adopt`, 404 `ServerRejected`, completed
downloads) is consumed to the end with every binding applied; while the
first fatal outcome (transport failure, file error, invalid
destination, non-404 `ServerRejected`, or `AlreadyExists` under
`Overwrite`) aborts the loop with that error, the in-memory snapshot
holding exactly the bindings applied before the abort and the saved
snapshot file matching it — partial progress is not discarded. -/
theorem per_item_vs_fatal_outcomes (policy : FileExistsPolicy)
    (dir : String) (outcomes : List Outcome) (df : DataFile) (fs : FS)
    (hfs : getFile fs (dataFilePath dir) = some (.doc (encDataFile df))) :
    ((∀ o ∈ outcomes, nonFatalOutcome policy o.1) →
      (consumeOutcomes policy dir (fun _ => false) outcomes df fs 0 0).1 =
        .ok () ∧
      (consumeOutcomes policy dir (fun _ => false) outcomes df fs 0 0).2.1 =
        applyOutcomes policy df outcomes) ∧
    (∀ pre o rest, outcomes = pre ++ o :: rest →
      (∀ p ∈ pre, nonFatalOutcome policy p.1) →
      ¬ nonFatalOutcome policy o.1 →
      ∃ e, o.1 = .error e ∧
        (consumeOutcomes policy dir (fun _ => false) outcomes df fs 0 0).1 =
          .error e ∧
        (consumeOutcomes policy dir (fun _ => false) outcomes df fs 0 0).2.1 =
          applyOutcomes policy df pre ∧
        getFile (consumeOutcomes policy dir (fun _ => false)
            outcomes df fs 0 0).2.2.1 (dataFilePath dir) =
          some (.doc (encDataFile (applyOutcomes policy df pre)))) := by
  constructor
  · intro hnf
    have h := consume_nonfatal policy dir outcomes df fs 0 0 hnf hfs
    exact ⟨h.1, h.2.1⟩
  · intro pre o rest hsplit hnf hfat
    subst hsplit
    exact consume_fatal policy dir pre o rest df fs 0 0 hnf hfat hfs

def ctx00 : DownloadContext := ⟨0, 0, "1_1.jpg"⟩

def outcomesA : List Outcome :=
  [(.ok ⟨"u/1_1.jpg", 3⟩, ctx00), (.error (.badResponse 404 "url"), ctx00)]

def outcomesB : List Outcome :=
  [(.ok ⟨"u/1_1.jpg", 3⟩, ctx00), (.error .requestError, ctx00),
   (.ok ⟨"u/1_1.jpg", 3⟩, ctx00)]

/-- Witness for C7: a 404 among outcomes leaves the run non-fatal,
while a transport failure aborts with that error. -/
theorem per_item_vs_fatal_outcomes_witness :
    (consumeOutcomes .warn "u" (fun _ => false) outcomesA dfSample
      (dfSample.save "u" []) 0 0).1 = .ok () ∧
    (consumeOutcomes .warn "u" (fun _ => false) outcomesB dfSample
      (dfSample.save "u" []) 0 0).1 = .error .requestError := by
  have h := per_item_vs_fatal_outcomes .warn "u" outcomesA dfSample
    (dfSample.save "u" []) (getFile_setFile_self _ _ _)
  have h2 := per_item_vs_fatal_outcomes .warn "u" outcomesB dfSample
    (dfSample.save "u" []) (getFile_setFile_self _ _ _)
  constructor
  · exact (h.1 (by decide)).1
  · obtain ⟨e, he, hres, _, _⟩ := h2.2 [(.ok ⟨"u/1_1.jpg", 3⟩, ctx00)]
      (.error .requestError, ctx00) [(.ok ⟨"u/1_1.jpg", 3⟩, ctx00)]
      rfl (by decide) (by decide)
    injection he with he2
    subst he2
    exact hres

/-! ## Fatal filesystem errors (claim C10) -/

/-- The error of one account run: a snapshot-save failure (an `anyhow`
error propagated with `?` and a context) or a download error escalated
out of the outcome loop. -/
inductive AccountError where
  | saveError
  | downloadError (e : DownloadError)
deriving DecidableEq, Repr

/-- Failure injection for the fallible snapshot saves of
`download_account`: the post-merge save, the incremental saves inside
the loop (numbered), and the final save. -/
structure AccountFaults where
  mergeSave : Bool
  incSave : Nat → Bool
  finalSave : Bool

/-- The persistence tail of `download_account`
(`src/download/mod.rs`, lines 128-192): save the merged data file
(`?`, fatal on failure), consume the download outcomes (incremental
saves with `.ok()`, failures ignored), then save the final data file
(`?`, fatal on failure). -/
def download_account_tail (policy : FileExistsPolicy) (dir : String)
    (faults : AccountFaults) (df : DataFile) (outcomes : List Outcome)
    (fs : FS) : Except AccountError (DataFile × FS) :=
  if faults.mergeSave then .error .saveError
  else
    let fs1 := df.save dir fs
    let r := consumeOutcomes policy dir faults.incSave outcomes df fs1 0 0
    match r.1 with
    | .error e => .error (.downloadError e)
    | .ok _ =>
      if faults.finalSave then .error .saveError
      else .ok (r.2.1, r.2.1.save dir r.2.2.1)

def faultsInc : AccountFaults := ⟨false, fun s => s == 0, false⟩

/-- Claim C10 (counterexample): the incremental save performed after a
completed download swallows its error (`.ok()` in the source); with
that save failing, `download_account` still returns success — a
filesystem error while writing the data file that is not fatal for the
account. -/
theorem fatal_fs_errors_counterexample :
    faultsInc.incSave 0 = true ∧
    ∃ v, download_account_tail .warn "u" faultsInc dfSample
      [(.ok ⟨"u/1_1.jpg", 3⟩, ctx00)] [] = .ok v := by
  exact ⟨rfl, ⟨_, rfl⟩⟩

/-- Claim C10 (amended): a failure of the post-merge save or of the
final save of the data file is fatal for the account
(`download_account` returns an error), and a scratch-file write failure
surfaces as a `FileError` outcome which aborts the outcome loop and
hence the account; but a failure of an incremental save performed
after an individual completed download is ignored and the account run
continues. -/
theorem fatal_fs_errors_amended (policy : FileExistsPolicy) (dir : String)
    (faults : AccountFaults) (df : DataFile) (outcomes : List Outcome)
    (fs : FS) :
    (faults.mergeSave = true →
      download_account_tail policy dir faults df outcomes fs =
        .error .saveError) ∧
    (∀ e, faults.mergeSave = false →
      (consumeOutcomes policy dir faults.incSave outcomes df
        (df.save dir fs) 0 0).1 = .error e →
      download_account_tail policy dir faults df outcomes fs =
        .error (.downloadError e)) ∧
    (faults.mergeSave = false → faults.finalSave = true →
      (consumeOutcomes policy dir faults.incSave outcomes df
        (df.save dir fs) 0 0).1 = .ok () →
      download_account_tail policy dir faults df outcomes fs =
        .error .saveError) ∧
    (∀ ctx rest, outcomes = (.error .fileError, ctx) :: rest →
      (consumeOutcomes policy dir faults.incSave outcomes df
        (df.save dir fs) 0 0).1 = .error .fileError) := by
  refine ⟨?_, ?_, ?_, ?_⟩
  · intro h
    simp [download_account_tail, h]
  · intro e h1 h2
    simp [download_account_tail, h1, h2]
  · intro h1 h2 h3
    simp [download_account_tail, h1, h2, h3]
  · intro ctx rest h
    subst h
    simp [consumeOutcomes]

/-- Witness for the amended C10 at concrete runs. -/
theorem fatal_fs_errors_amended_witness :
    download_account_tail .warn "u" ⟨true, fun _ => false, false⟩ dfSample
      [] [] = .error .saveError ∧
    download_account_tail .warn "u" ⟨false, fun _ => false, false⟩ dfSample
      [(.error .fileError, ctx00)] [] = .error (.downloadError .fileError) ∧
    download_account_tail .warn "u" ⟨false, fun _ => false, true⟩ dfSample
      [] [] = .error .saveError := by
  have h := fatal_fs_errors_amended .warn "u" ⟨true, fun _ => false, false⟩
    dfSample [] []
  have h2 := fatal_fs_errors_amended .warn "u" ⟨false, fun _ => false, false⟩
    dfSample [(.error .fileError, ctx00)] []
  have h3 := fatal_fs_errors_amended .warn "u" ⟨false, fun _ => false, true⟩
    dfSample [] []
  exact ⟨h.1 rfl, h2.2.1 .fileError rfl (h2.2.2.2 ctx00 [] rfl),
    h3.2.2.1 rfl rfl rfl⟩

end TwitterDl
